import Mathlib

/-!
Shallow embedding of `rest_gae.py` (NDB REST handler generator) and proofs
about its specification claims.

The Python module wraps NDB models with REST endpoints (GET/POST/PUT/DELETE),
enforcing per-method permissions, ownership, property projection and name
translation, pagination, and a transactional multi-update.  Entities, stores,
and wire JSON are modelled explicitly; the storage engine's opaque pieces
(urlsafe key tokens, cursors, GQL parsing, ordering) are modelled as small
executable functions or handler parameters, matching the interfaces the source
relies on.
-/

set_option autoImplicit false
set_option linter.unusedTactic false
set_option linter.unreachableTactic false
set_option linter.unusedVariables false

/-- The REST permission constants (`PERMISSION_ANYONE` etc. in the source). -/
def PERMISSION_ANYONE : String := "anyone"

/-- `PERMISSION_LOGGED_IN_USER` in the source. -/
def PERMISSION_LOGGED_IN_USER : String := "logged_in_user"

/-- `PERMISSION_OWNER_USER` in the source. -/
def PERMISSION_OWNER_USER : String := "owner_user"

/-- `PERMISSION_ADMIN` in the source. -/
def PERMISSION_ADMIN : String := "admin"

/-- An NDB datastore key: an entity kind plus a string identifier. -/
structure NKey where
  kind : String
  sid : String
deriving DecidableEq, Repr

/-- Python values flowing through the handler: JSON scalars and containers on
the wire side, plus datetimes, `ndb.Key` references and nested model
instances on the model side. -/
inductive Val where
  | null : Val
  | str (s : String) : Val
  | int (n : Int) : Val
  | bool (b : Bool) : Val
  | dt (t : Nat) : Val
  | key (k : NKey) : Val
  | ent (props : List (String × Val)) : Val
  | arr (xs : List Val) : Val
  | obj (fields : List (String × Val)) : Val
deriving Repr

mutual

/-- Boolean equality on values (used to derive decidable equality). -/
def Val.beq : Val → Val → Bool
  | .null, .null => true
  | .str a, .str b => a == b
  | .int a, .int b => a == b
  | .bool a, .bool b => a == b
  | .dt a, .dt b => a == b
  | .key a, .key b => a == b
  | .ent a, .ent b => Val.beqFields a b
  | .arr a, .arr b => Val.beqList a b
  | .obj a, .obj b => Val.beqFields a b
  | _, _ => false

/-- Boolean equality on value lists. -/
def Val.beqList : List Val → List Val → Bool
  | [], [] => true
  | a :: as, b :: bs => Val.beq a b && Val.beqList as bs
  | _, _ => false

/-- Boolean equality on field lists. -/
def Val.beqFields : List (String × Val) → List (String × Val) → Bool
  | [], [] => true
  | (ka, va) :: as, (kb, vb) :: bs => ka == kb && Val.beq va vb && Val.beqFields as bs
  | _, _ => false

end

mutual

theorem Val.beq_iff : ∀ a b : Val, Val.beq a b = true ↔ a = b
  | .null, .null => by simp [Val.beq]
  | .str a, .str b => by simp [Val.beq]
  | .int a, .int b => by simp [Val.beq]
  | .bool a, .bool b => by simp [Val.beq]
  | .dt a, .dt b => by simp [Val.beq]
  | .key a, .key b => by simp [Val.beq]
  | .ent a, .ent b => by simp [Val.beq, Val.beqFields_iff a b]
  | .arr a, .arr b => by simp [Val.beq, Val.beqList_iff a b]
  | .obj a, .obj b => by simp [Val.beq, Val.beqFields_iff a b]
  | .null, .str _ | .null, .int _ | .null, .bool _ | .null, .dt _ | .null, .key _
  | .null, .ent _ | .null, .arr _ | .null, .obj _
  | .str _, .null | .str _, .int _ | .str _, .bool _ | .str _, .dt _ | .str _, .key _
  | .str _, .ent _ | .str _, .arr _ | .str _, .obj _
  | .int _, .null | .int _, .str _ | .int _, .bool _ | .int _, .dt _ | .int _, .key _
  | .int _, .ent _ | .int _, .arr _ | .int _, .obj _
  | .bool _, .null | .bool _, .str _ | .bool _, .int _ | .bool _, .dt _ | .bool _, .key _
  | .bool _, .ent _ | .bool _, .arr _ | .bool _, .obj _
  | .dt _, .null | .dt _, .str _ | .dt _, .int _ | .dt _, .bool _ | .dt _, .key _
  | .dt _, .ent _ | .dt _, .arr _ | .dt _, .obj _
  | .key _, .null | .key _, .str _ | .key _, .int _ | .key _, .bool _ | .key _, .dt _
  | .key _, .ent _ | .key _, .arr _ | .key _, .obj _
  | .ent _, .null | .ent _, .str _ | .ent _, .int _ | .ent _, .bool _ | .ent _, .dt _
  | .ent _, .key _ | .ent _, .arr _ | .ent _, .obj _
  | .arr _, .null | .arr _, .str _ | .arr _, .int _ | .arr _, .bool _ | .arr _, .dt _
  | .arr _, .key _ | .arr _, .ent _ | .arr _, .obj _
  | .obj _, .null | .obj _, .str _ | .obj _, .int _ | .obj _, .bool _ | .obj _, .dt _
  | .obj _, .key _ | .obj _, .ent _ | .obj _, .arr _ => by simp [Val.beq]

theorem Val.beqList_iff : ∀ a b : List Val, Val.beqList a b = true ↔ a = b
  | [], [] => by simp [Val.beqList]
  | a :: as, b :: bs => by
      simp [Val.beqList, Val.beq_iff a b, Val.beqList_iff as bs]
  | [], _ :: _ | _ :: _, [] => by simp [Val.beqList]

theorem Val.beqFields_iff : ∀ a b : List (String × Val), Val.beqFields a b = true ↔ a = b
  | [], [] => by simp [Val.beqFields]
  | (ka, va) :: as, (kb, vb) :: bs => by
      simp [Val.beqFields, Val.beq_iff va vb, Val.beqFields_iff as bs, and_assoc]
  | [], _ :: _ | _ :: _, [] => by simp [Val.beqFields]

end

instance : DecidableEq Val := fun a b => decidable_of_iff _ (Val.beq_iff a b)

/-- Python exceptions as seen by the handler: `RESTException`s (caught by the
method wrapper and turned into HTTP 400) versus any other exception (which
escapes the wrapper). -/
inductive Exc where
  | rest (msg : String) : Exc
  | other (msg : String) : Exc
deriving DecidableEq, Repr

instance {e a : Type} [DecidableEq e] [DecidableEq a] : DecidableEq (Except e a) := fun x y =>
  match x, y with
  | .ok v, .ok w => decidable_of_iff (v = w) (by simp)
  | .error v, .error w => decidable_of_iff (v = w) (by simp)
  | .ok _, .error _ => isFalse (by simp)
  | .error _, .ok _ => isFalse (by simp)

/-- The message carried by an exception (`'%s' % exc` in the source). -/
def Exc.msg : Exc → String
  | .rest m => m
  | .other m => m

/-- Dictionary lookup on an association list (first occurrence wins, as for a
Python dict with unique keys). -/
def aget (d : List (String × Val)) (k : String) : Option Val :=
  (d.find? (fun p => p.1 = k)).map (fun p => p.2)

/-- Python `k in d` membership test. -/
def ahas (d : List (String × Val)) (k : String) : Bool :=
  d.any (fun p => p.1 = k)

/-- Python `d[k] = v`: overwrite in place if the key exists, else append. -/
def aset (d : List (String × Val)) (k : String) (v : Val) : List (String × Val) :=
  if ahas d k then d.map (fun p => if p.1 = k then (k, v) else p) else d ++ [(k, v)]

/-- Python `del d[k]`. -/
def adel (d : List (String × Val)) (k : String) : List (String × Val) :=
  d.filter (fun p => p.1 ≠ k)

/-- Same operations for string-to-string tables (`translate_property_names`). -/
def tget (d : List (String × String)) (k : String) : Option String :=
  (d.find? (fun p => p.1 = k)).map (fun p => p.2)

/-- `d[k] = v` on a string table (used for `dict.update`). -/
def tset (d : List (String × String)) (k : String) (v : String) : List (String × String) :=
  if d.any (fun p => p.1 = k) then d.map (fun p => if p.1 = k then (k, v) else p)
  else d ++ [(k, v)]

/-- Python `dict.update`: apply all entries of `upd` onto `d`. -/
def tupdate (d upd : List (String × String)) : List (String × String) :=
  upd.foldl (fun acc p => tset acc p.1 p.2) d

/-- Python truthiness of a value (`if not model_id: ...`). -/
def pyFalsy : Val → Bool
  | .null => true
  | .str s => s = ""
  | .int n => n = 0
  | .bool b => b = false
  | .dt _ => false
  | .key _ => false
  | .ent _ => false
  | .arr xs => xs.isEmpty
  | .obj fs => fs.isEmpty

/-- Python `'%s' % v` formatting, as far as the error messages need it. -/
def pyFormat : Val → String
  | .null => "None"
  | .str s => s
  | .int n => toString n
  | .bool b => if b then "True" else "False"
  | _ => "<object>"

/-- Python `s[1:]` on a string (used to strip the leading slash of the
model-id route capture). -/
def pyTail (s : String) : String := String.mk s.data.tail

/-- The dict fields of a JSON value (`json.loads` result used as a dict). -/
def objFields : Val → List (String × Val)
  | .obj fs => fs
  | _ => []

/-- A model's `RESTMeta` sidecar class.  Absent attributes behave like the
`getattr(..., default)` calls in the source: list attributes default to `[]`,
`use_input_id` to `False`, and `user_owner_property` / `admin_property` are
only meaningful when declared (`hasattr` checks), hence `Option`. -/
structure RMeta where
  included_input_properties : List String := []
  included_output_properties : List String := []
  included_properties : List String := []
  excluded_input_properties : List String := []
  excluded_output_properties : List String := []
  excluded_properties : List String := []
  translate_property_names : List (String × String) := []
  translate_input_property_names : List (String × String) := []
  translate_output_property_names : List (String × String) := []
  user_owner_property : Option String := none
  use_input_id : Bool := false
  admin_property : Option String := none

mutual

/-- The kind of an NDB property, as far as `_value_to_property` distinguishes
them: `keyP` carries `prop._kind` (the target kind name, when declared),
`structuredP` carries `prop._modelclass`. -/
inductive PType where
  | stringP : PType
  | intP : PType
  | boolP : PType
  | dateTimeP : PType
  | keyP (kind : Option String) : PType
  | structuredP (sub : ModelCls) : PType

/-- A property descriptor: its kind and its `_repeated` flag. -/
inductive PropD where
  | mk (ptype : PType) (repeated : Bool) : PropD

/-- An NDB model class: its datastore kind name, optional `RESTMeta`, and its
`_properties` map (association list, in class definition order). -/
inductive ModelCls where
  | mk (kind : String) (meta : Option RMeta) (props : List (String × PropD)) : ModelCls

end

/-- The property kind of a descriptor. -/
def PropD.ptype : PropD → PType
  | .mk t _ => t

/-- The `_repeated` flag of a descriptor. -/
def PropD.repeated : PropD → Bool
  | .mk _ r => r

/-- The datastore kind name of a model class. -/
def ModelCls.kind : ModelCls → String
  | .mk k _ _ => k

/-- The optional `RESTMeta` of a model class. -/
def ModelCls.meta : ModelCls → Option RMeta
  | .mk _ m _ => m

/-- The `_properties` of a model class. -/
def ModelCls.props : ModelCls → List (String × PropD)
  | .mk _ _ ps => ps

/-- The declared property names of a model class (`model._properties.keys()`). -/
def ModelCls.propNames (m : ModelCls) : List String :=
  m.props.map (fun p => p.1)

/-- `getattr(model_class.RESTMeta, 'use_input_id', False)` guarded by the
`getattr(model_class, 'RESTMeta', None)` check. -/
def ModelCls.useInputId (m : ModelCls) : Bool :=
  match m.meta with
  | some mc => mc.use_input_id
  | none => false

/-- The declared `user_owner_property`, when the model has a `RESTMeta` with
that attribute. -/
def ModelCls.ownerProp (m : ModelCls) : Option String :=
  match m.meta with
  | some mc => mc.user_owner_property
  | none => none

/-- Input/output direction (`input_type` strings in the source). -/
inductive Dir where
  | input : Dir
  | output : Dir
deriving DecidableEq, Repr

/-- `included_<input_type>_properties` of a meta class. -/
def RMeta.includedDir (mc : RMeta) : Dir → List String
  | .input => mc.included_input_properties
  | .output => mc.included_output_properties

/-- `excluded_<input_type>_properties` of a meta class. -/
def RMeta.excludedDir (mc : RMeta) : Dir → List String
  | .input => mc.excluded_input_properties
  | .output => mc.excluded_output_properties

/-- `translate_<input_type>_property_names` of a meta class. -/
def RMeta.translateDir (mc : RMeta) : Dir → List (String × String)
  | .input => mc.translate_input_property_names
  | .output => mc.translate_output_property_names

/-- `BaseRESTHandler.DEFAULT_MAX_QUERY_RESULTS`. -/
def DEFAULT_MAX_QUERY_RESULTS : Nat := 1000

/-- `BaseRESTHandler.DEFAULT_EXCLUDED_INPUT_PROPERTIES`. -/
def DEFAULT_EXCLUDED_INPUT_PROPERTIES : List String := ["class_"]

/-- `BaseRESTHandler.DEFAULT_EXCLUDED_OUTPUT_PROPERTIES`. -/
def DEFAULT_EXCLUDED_OUTPUT_PROPERTIES : List String := []

/-- `get_included_properties(model, input_type)` from the source, line by
line: start from the declared inclusion sets (defaulting to all model
properties when their union is empty), force-include `id` for `use_input_id`
input, and subtract the declared exclusion sets plus the built-in defaults. -/
def get_included_properties (m : ModelCls) (d : Dir) : Finset String :=
  let included0 : Finset String :=
    match m.meta with
    | some mc => (mc.includedDir d).toFinset ∪ mc.included_properties.toFinset
    | none => ∅
  let included1 : Finset String :=
    if included0 = ∅ then m.propNames.toFinset else included0
  let excluded0 : Finset String :=
    match m.meta with
    | some mc => (mc.excludedDir d).toFinset ∪ mc.excluded_properties.toFinset
    | none => ∅
  let excluded1 : Finset String :=
    match d with
    | .input => excluded0 ∪ DEFAULT_EXCLUDED_INPUT_PROPERTIES.toFinset
    | .output => excluded0 ∪ DEFAULT_EXCLUDED_OUTPUT_PROPERTIES.toFinset
  let included2 : Finset String :=
    match d, m.meta with
    | .input, some mc => if mc.use_input_id then included1 ∪ {"id"} else included1
    | _, _ => included1
  included2 \ excluded1

/-- The merged translation table used by `translate_property_names`: the
shared `translate_property_names` table updated with the direction-specific
one. -/
def translationTable (m : ModelCls) (d : Dir) : List (String × String) :=
  match m.meta with
  | some mc => tupdate mc.translate_property_names (mc.translateDir d)
  | none => []

/-- One renaming step of `translate_property_names`: for output move
`data[old]` to `data[new]`, for input move `data[new]` back to `data[old]`;
pairs whose source name is absent are left untouched. -/
def translateStep (d : Dir) (data : List (String × Val)) (pr : String × String) :
    List (String × Val) :=
  match d with
  | .output =>
    match aget data pr.1 with
    | none => data
    | some v => aset (adel data pr.1) pr.2 v
  | .input =>
    match aget data pr.2 with
    | none => data
    | some v => aset (adel data pr.2) pr.1 v

/-- `translate_property_names(data, model, input_type)` from the source. -/
def translate_property_names (data : List (String × Val)) (m : ModelCls) (d : Dir) :
    List (String × Val) :=
  match m.meta with
  | none => data
  | some _ => (translationTable m d).foldl (translateStep d) data

/-- A model instance: its kind, its datastore key (`none` until first put for
auto-generated keys), and its property values. -/
structure Entity where
  kind : String
  key : Option NKey
  props : List (String × Val)
deriving DecidableEq, Repr

/-- `getattr(model, name)`: an unset NDB property reads as `None`. -/
def Entity.get (e : Entity) (name : String) : Val :=
  (aget e.props name).getD Val.null

/-- The current principal, as the auth collaborator provides it: their user
key and the value of their `RESTMeta.admin_property` flag. -/
structure URec where
  key : NKey
  isAdmin : Bool
deriving DecidableEq, Repr

/-- The urlsafe encoding of a datastore key (`key.urlsafe()`), modelled as an
injective tagged string. -/
def urlsafeEncode (k : NKey) : String :=
  "K:" ++ k.kind ++ ":" ++ k.sid

/-- Split a character list at the colons. -/
def splitColons : List Char → List (List Char)
  | [] => [[]]
  | c :: rest =>
    if c = ':' then [] :: splitColons rest
    else
      match splitColons rest with
      | [] => [[c]]
      | p :: ps => (c :: p) :: ps

/-- `ndb.Key(urlsafe=s)`: partial inverse of `urlsafeEncode`; `none` models
the `ProtocolBufferDecodeError` raised on a token outside the image. -/
def urlsafeDecode (s : String) : Option NKey :=
  match s.data with
  | 'K' :: ':' :: rest =>
    match splitColons rest with
    | [kd, i] => some ⟨String.mk kd, String.mk i⟩
    | _ => none
  | _ => none

/-- `ndb.Model._kind_map.get(kind)`: the global kind registry. -/
def kindLookup (km : List (String × ModelCls)) (k : String) : Option ModelCls :=
  (km.find? (fun p => p.1 = k)).map (fun p => p.2)

/-- Digit-list accumulation for decimal parsing. -/
def digitsVal : List Char → Nat → Option Nat
  | [], acc => some acc
  | c :: rest, acc =>
    if c.isDigit then digitsVal rest (acc * 10 + (c.toNat - 48)) else none

/-- Decimal natural-number parsing (the kernel-computable model of parsing a
decimal token, e.g. a cursor offset). -/
def parseNat (s : String) : Option Nat :=
  match s.data with
  | [] => none
  | ds => digitsVal ds 0

/-- Python `int(...)` on a string (the model used for the `limit`
parameter): an optional sign followed by decimal digits. -/
def parseInt (s : String) : Option Int :=
  match s.data with
  | [] => none
  | '-' :: rest =>
    (match rest with
     | [] => Option.none
     | ds => digitsVal ds 0).map (fun n => -(n : Int))
  | ds => (digitsVal ds 0).map (fun n => (n : Int))

/-- `dateutil.parser.parse` composed with `datetime.isoformat` is modelled as
decimal printing/parsing of an abstract timestamp; this is the inverse pair
the source relies on. -/
def isoformat (t : Nat) : String := Nat.repr t

/-- The date parser (`dateutil.parser.parse`); fails on non-parsable input. -/
def dateutilParse (s : String) : Option Nat := parseNat s

/-- `cls(**input_properties)`: construct a fresh model instance.  An `id`
keyword applies the client-supplied identifier; any other keyword that is not
a declared property raises (`TypeError` in NDB). -/
def entityNew (cls : ModelCls) (input : List (String × Val)) : Except Exc Entity :=
  if input.all (fun p => p.1 == "id" || cls.propNames.contains p.1) then
    match aget input "id" with
    | none => .ok ⟨cls.kind, none, adel input "id"⟩
    | some (.str s) => .ok ⟨cls.kind, some ⟨cls.kind, s⟩, adel input "id"⟩
    | some (.int n) => .ok ⟨cls.kind, some ⟨cls.kind, toString n⟩, adel input "id"⟩
    | some _ => .error (.other "invalid id type")
  else .error (.other "TypeError: unknown property")

/-- `model.populate(**input_properties)`: assign the given properties on an
existing instance; keywords must be declared properties. -/
def entityPopulate (m : Entity) (cls : ModelCls) (input : List (String × Val)) :
    Except Exc Entity :=
  if input.all (fun p => cls.propNames.contains p.1) then
    .ok ⟨m.kind, m.key, input.foldl (fun ps p => aset ps p.1 p.2) m.props⟩
  else .error (.other "TypeError: unknown property")

mutual

/-- `BaseRESTHandler._build_model_from_data(data, cls, model)`: translate the
input property names, then process the translated dict. -/
def _build_model_from_data (u : Option URec) (km : List (String × ModelCls))
    (data0 : List (String × Val)) (cls : ModelCls) (model : Option Entity) :
    Except Exc Entity :=
  _build_from_translated u km (translate_property_names data0 cls .input) cls model
termination_by (sizeOf cls, 2, 0)
decreasing_by all_goals (simp_wf; first
  | (apply Prod.Lex.right; first
      | omega
      | (apply Prod.Lex.left; omega)
      | (apply Prod.Lex.right; omega))
  | (apply Prod.Lex.left; first
      | omega
      | (cases cls; simp [ModelCls.props]; try omega)))

/-- The body of `_build_model_from_data` after the name translation: coerce
the declared properties present in the data, handle the `use_input_id`
identifier, filter by the included input properties, inject the owner, and
construct or populate the instance. -/
def _build_from_translated (u : Option URec) (km : List (String × ModelCls))
    (data : List (String × Val)) (cls : ModelCls) (model : Option Entity) :
    Except Exc Entity :=
  match walkProps u km data cls.props with
  | .error e => .error e
  | .ok input0 =>
    match (if model.isNone && cls.useInputId then
             if ahas data "id" then
               Except.ok (aset input0 "id" ((aget data "id").getD Val.null))
             else Except.error (Exc.rest "id field is required")
           else Except.ok input0) with
    | .error e => .error e
    | .ok input1 =>
      let included := get_included_properties cls .input
      let input2 := input1.filter (fun p => decide (p.1 ∈ included))
      match model with
      | none =>
        entityNew cls
          (match cls.ownerProp, u with
           | some op, some usr => aset input2 op (Val.key usr.key)
           | _, _ => input2)
      | some m => entityPopulate m cls input2
termination_by (sizeOf cls, 1, 0)
decreasing_by all_goals (simp_wf; first
  | (apply Prod.Lex.right; first
      | omega
      | (apply Prod.Lex.left; omega)
      | (apply Prod.Lex.right; omega))
  | (apply Prod.Lex.left; first
      | omega
      | (cases cls; simp [ModelCls.props]; try omega)))

/-- The loop over `cls._properties`: coerce each declared property present in
the (translated) data, preserving declaration order; repeated properties are
coerced element-wise. -/
def walkProps (u : Option URec) (km : List (String × ModelCls))
    (data : List (String × Val)) (props : List (String × PropD)) :
    Except Exc (List (String × Val)) :=
  match props with
  | [] => .ok []
  | (name, pd) :: rest =>
    if ahas data name then
      match coerceProp u km ((aget data name).getD Val.null) pd with
      | .error e => .error e
      | .ok v2 =>
        match walkProps u km data rest with
        | .error e => .error e
        | .ok restOut => .ok ((name, v2) :: restOut)
    else walkProps u km data rest
termination_by (sizeOf props, 0, 0)
decreasing_by all_goals (simp_wf; first
  | (apply Prod.Lex.right; first
      | omega
      | (apply Prod.Lex.left; omega)
      | (apply Prod.Lex.right; omega))
  | (apply Prod.Lex.left; first
      | omega
      | (cases cls; simp [ModelCls.props]; try omega)))

/-- The per-property coercion step of the `_properties` loop: repeated
properties coerce element-wise over a sequence, non-repeated ones coerce
once. -/
def coerceProp (u : Option URec) (km : List (String × ModelCls))
    (v : Val) (pd : PropD) : Except Exc Val :=
  match pd with
  | .mk pt rep =>
    if rep then
      match v with
      | .arr xs =>
        match coerceList u km xs pt with
        | .error e => Except.error e
        | .ok ys => Except.ok (Val.arr ys)
      | _ => Except.error (Exc.other "TypeError: not iterable")
    else _value_to_property u km v pt
termination_by (sizeOf pd, 2, 0)
decreasing_by all_goals (simp_wf; first
  | (apply Prod.Lex.right; first
      | omega
      | (apply Prod.Lex.left; omega)
      | (apply Prod.Lex.right; omega))
  | (apply Prod.Lex.left; first
      | omega
      | (cases cls; simp [ModelCls.props]; try omega)))

/-- Element-wise coercion of a repeated property's values. -/
def coerceList (u : Option URec) (km : List (String × ModelCls))
    (xs : List Val) (pt : PType) : Except Exc (List Val) :=
  match xs with
  | [] => .ok []
  | x :: rest =>
    match _value_to_property u km x pt with
    | .error e => .error e
    | .ok y =>
      match coerceList u km rest pt with
      | .error e => .error e
      | .ok ys => .ok (y :: ys)
termination_by (sizeOf pt, 1, sizeOf xs)
decreasing_by all_goals (simp_wf; first
  | (apply Prod.Lex.right; first
      | omega
      | (apply Prod.Lex.left; omega)
      | (apply Prod.Lex.right; omega))
  | (apply Prod.Lex.left; first
      | omega
      | (cases cls; simp [ModelCls.props]; try omega)))

/-- `BaseRESTHandler._value_to_property(value, prop)`: key references decode
the urlsafe token, falling back to a client-supplied identifier when the
target model uses input ids; temporal values are parsed; structured values
recurse into entity construction; anything else passes through. -/
def _value_to_property (u : Option URec) (km : List (String × ModelCls))
    (v : Val) (pt : PType) : Except Exc Val :=
  match pt with
  | .keyP kind =>
    match v with
    | .null => .ok .null
    | .str s =>
      match urlsafeDecode s with
      | some k => .ok (.key k)
      | none =>
        match kind with
        | some kd =>
          match kindLookup km kd with
          | some mc =>
            if mc.useInputId then .ok (.key ⟨mc.kind, s⟩)
            else .error (.rest ("invalid key: " ++ s))
          | none => .error (.rest ("invalid key: " ++ s))
        | none => .error (.rest ("invalid key: " ++ s))
    | _ => .error (.other "TypeError: bad key value")
  | .dateTimeP =>
    match v with
    | .str s =>
      match dateutilParse s with
      | some t => .ok (.dt t)
      | none => .error (.other "ValueError: could not parse date")
    | _ => .error (.other "TypeError: could not parse date")
  | .structuredP sub =>
    match v with
    | .obj fs =>
      match _build_model_from_data u km fs sub none with
      | .error e => .error e
      | .ok e => .ok (Val.ent e.props)
    | _ => .error (.other "TypeError: not a dict")
  | _ => .ok v
termination_by (sizeOf pt, 0, 0)
decreasing_by all_goals (simp_wf; first
  | (apply Prod.Lex.right; first
      | omega
      | (apply Prod.Lex.left; omega)
      | (apply Prod.Lex.right; omega))
  | (apply Prod.Lex.left; first
      | omega
      | (cases cls; simp [ModelCls.props]; try omega)))

end

/-- The datastore: stored entities plus a counter used to allocate
auto-generated keys on `put`. -/
structure Store where
  entries : List Entity
  nextGen : Nat
deriving DecidableEq, Repr

/-- `ndb.Key(...).get()`: look up a stored entity by key. -/
def sget (s : Store) (k : NKey) : Option Entity :=
  s.entries.find? (fun x => x.key = some k)

/-- `model.put()`: store the entity under its key, allocating a fresh key
when it has none; returns the store and the stored entity. -/
def sput (s : Store) (e : Entity) : Store × Entity :=
  match e.key with
  | some k =>
    if s.entries.any (fun x => x.key = some k) then
      (⟨s.entries.map (fun x => if x.key = some k then e else x), s.nextGen⟩, e)
    else (⟨s.entries ++ [e], s.nextGen⟩, e)
  | none =>
    let k : NKey := ⟨e.kind, "gen" ++ Nat.repr s.nextGen⟩
    let e2 : Entity := ⟨e.kind, some k, e.props⟩
    (⟨s.entries ++ [e2], s.nextGen + 1⟩, e2)

/-- `model.key.delete()`: remove the entity with the given key. -/
def sdel (s : Store) (k : Option NKey) : Store :=
  ⟨s.entries.filter (fun x => x.key ≠ k), s.nextGen⟩

/-- The request parameters the handler reads: the `q`, `order`, `limit` and
`cursor` query-string arguments and the parsed JSON body (`none` when the
body is not valid JSON). -/
structure Req where
  q : Option String := none
  order : Option String := none
  limit : Option String := none
  cursor : Option String := none
  body : Option Val := none

/-- A configured `RESTHandlerClass`: the model, permissions, the current
principal (from the auth collaborator), the global kind registry, the
engine's GQL and ordering semantics, and the optional callbacks. -/
structure Handler where
  model : ModelCls
  permissions : List (String × String)
  user : Option URec
  kindMap : List (String × ModelCls)
  gqlSem : String → Option (Entity → Bool) := fun _ => none
  orderSem : List (Bool × String) → List Entity → List Entity := fun _ q => q
  get_callback : Option (List Entity → List Entity) := none
  get_callback_single : Option (Entity → Entity) := none
  post_callback : Option (Entity → Val → Except Exc Entity) := none
  put_callback : Option (Entity → Val → Except Exc Entity) := none
  delete_callback : Option (Entity → Except Exc Unit) := none

/-- `self.permissions[method]` lookup (`none` when the method is not in the
permissions dict). -/
def Handler.permLookup (h : Handler) (method : String) : Option String :=
  (h.permissions.find? (fun p => p.1 = method)).map (fun p => p.2)

/-- `self.is_user_admin`: the current principal's admin flag. -/
def Handler.isUserAdmin (h : Handler) : Bool :=
  match h.user with
  | some u => u.isAdmin
  | none => false

/-- `self.get_model_owner(model)`: read the model's declared owner property;
an undeclared `user_owner_property` raises an `AttributeError`. -/
def Handler.getModelOwner (h : Handler) (m : Entity) : Except Exc Val :=
  match h.model.ownerProp with
  | some p => .ok (m.get p)
  | none => .error (.other "AttributeError: user_owner_property")

/-- The argument validation performed by `get_rest_class`: an `owner_user`
permission requires a declared `user_owner_property` naming an existing
property. -/
def restClassValid (model : ModelCls) (perms : List (String × String)) : Bool :=
  if perms.any (fun p => p.2 == PERMISSION_OWNER_USER) then
    match model.ownerProp with
    | some op => model.propNames.contains op
    | none => false
  else true

/-- The permission table attached by `get_rest_class`: `OPTIONS: anyone`
updated with the user-provided permissions. -/
def mkPermissions (kwd : List (String × String)) : List (String × String) :=
  tupdate [("OPTIONS", PERMISSION_ANYONE)] kwd

/-- `BaseRESTHandler._model_id_to_model`: falsy id resolves to `None`; then
key construction (client-supplied id or urlsafe decode) and store lookup,
with any failure raised as `Invalid model id`. -/
def _model_id_to_model (h : Handler) (s : Store) (mid : Val) : Except Exc (Option Entity) :=
  if pyFalsy mid then .ok none
  else
    let keyOpt : Option NKey :=
      if h.model.useInputId then
        match mid with
        | .str sid => some ⟨h.model.kind, sid⟩
        | .int n => some ⟨h.model.kind, toString n⟩
        | _ => none
      else
        match mid with
        | .str sid => urlsafeDecode sid
        | _ => none
    match keyOpt with
    | none => .error (.rest ("Invalid model id - " ++ pyFormat mid))
    | some k =>
      match sget s k with
      | none => .error (.rest ("Invalid model id - " ++ pyFormat mid))
      | some m => .ok (some m)

/-- `self.model.query()`: all stored entities of the model's kind. -/
def modelQuery (s : Store) (cls : ModelCls) : List Entity :=
  s.entries.filter (fun x => x.kind == cls.kind)

/-- `BaseRESTHandler._filter_query`: no `q` parameter returns the plain model
query; otherwise the engine's GQL semantics apply, invalid GQL raising a
`RESTException`. -/
def _filter_query (h : Handler) (s : Store) (req : Req) : Except Exc (List Entity) :=
  match req.q with
  | none => .ok (modelQuery s h.model)
  | some qs =>
    match h.gqlSem qs with
    | some pred => .ok ((modelQuery s h.model).filter pred)
    | none => .error (.rest ("Invalid query param - \"" ++ qs ++ "\""))

/-- `BaseRESTHandler._order_query`: parse the comma-separated order spec,
validate the column names, and apply the engine's ordering. -/
def _order_query (h : Handler) (req : Req) (q : List Entity) : Except Exc (List Entity) :=
  match req.order with
  | none => .ok q
  | some spec =>
    let orders := ((spec.splitOn ",").map (fun o => o.trim)).map
      (fun o => if o.startsWith "-" || o.startsWith "+" then o else "+" ++ o)
    if orders.all (fun o => h.model.propNames.contains (o.drop 1)) then
      .ok (h.orderSem (orders.map (fun o => (o.startsWith "-", o.drop 1))) q)
    else .error (.rest ("Invalid \"order\" parameter - " ++ spec))

/-- The limit computation of `_fetch_query`: default 1000 when absent,
otherwise `int()` (modelled by `String.toInt?`) with a positivity check. -/
def computeLimit (limitParam : Option String) : Except Exc Nat :=
  match limitParam with
  | none => .ok DEFAULT_MAX_QUERY_RESULTS
  | some s =>
    match parseInt s with
    | none => .error (.rest ("Invalid \"limit\" parameter - " ++ s))
    | some n =>
      if n ≤ 0 then .error (.rest ("Invalid \"limit\" parameter - " ++ s))
      else .ok n.toNat

/-- The cursor computation of `_fetch_query`: `Cursor(urlsafe=...)` decode,
whose `BadValueError` becomes a `RESTException`. -/
def computeCursor (cursorParam : Option String) : Except Exc (Option Nat) :=
  match cursorParam with
  | none => .ok none
  | some s =>
    match parseNat s with
    | none => .error (.rest ("Invalid \"cursor\" argument - " ++ s))
    | some c => .ok (some c)

/-- The fetch step of `_fetch_query`: run the engine's `fetch_page`, turn its
`BadRequestError` (cursor rejected after the query changed) into a
`RESTException`, and null out the cursor when no more results are
available. -/
def fetchStep (fp : Nat → Option Nat → Except Unit (List Entity × Nat × Bool))
    (limit : Nat) (cursorParam : Option String) : Except Exc (List Entity × Option Nat) :=
  match computeCursor cursorParam with
  | .error e => .error e
  | .ok cur =>
    match fp limit cur with
    | .error _ => .error (.rest ("Invalid \"cursor\" argument - " ++ cursorParam.getD "None"))
    | .ok (results, c, more) => .ok (results, if more then some c else none)

/-- `BaseRESTHandler._fetch_query`, parameterized by the storage engine's
`fetch_page` function. -/
def _fetch_query (fp : Nat → Option Nat → Except Unit (List Entity × Nat × Bool))
    (limitParam cursorParam : Option String) : Except Exc (List Entity × Option Nat) :=
  match computeLimit limitParam with
  | .error e => .error e
  | .ok limit => fetchStep fp limit cursorParam

/-- The concrete `fetch_page` of a query snapshot: cursors are offsets, the
`more` flag reports whether results remain past the page. -/
def engineFetchPage (q : List Entity) (limit : Nat) (cursor : Option Nat) :
    Except Unit (List Entity × Nat × Bool) :=
  let off := cursor.getD 0
  let res := (q.drop off).take limit
  let newOff := off + res.length
  .ok (res, newOff, decide (newOff < q.length))

/-- `NDBEncoder._decode_key`: a key encodes as its literal string identifier
when the target model uses client-supplied ids, otherwise as its urlsafe
token. -/
def decodeKeyStr (km : List (String × ModelCls)) (k : NKey) : String :=
  match kindLookup km k.kind with
  | some mc => if mc.useInputId then k.sid else urlsafeEncode k
  | none => urlsafeEncode k

mutual

/-- The leaf encoding performed by `json.dumps(..., cls=NDBEncoder)`:
datetimes to ISO strings, keys to reference tokens, nested model values to
raw JSON objects. -/
def encodeVal (km : List (String × ModelCls)) : Val → Val
  | .dt t => .str (isoformat t)
  | .key k => .str (decodeKeyStr km k)
  | .ent ps => .obj (encodeFields km ps)
  | .arr xs => .arr (encodeList km xs)
  | .obj fs => .obj (encodeFields km fs)
  | v => v

/-- Element-wise leaf encoding of a list value. -/
def encodeList (km : List (String × ModelCls)) : List Val → List Val
  | [] => []
  | x :: xs => encodeVal km x :: encodeList km xs

/-- Field-wise leaf encoding of an object value. -/
def encodeFields (km : List (String × ModelCls)) :
    List (String × Val) → List (String × Val)
  | [] => []
  | (n, v) :: r => (n, encodeVal km v) :: encodeFields km r

end

/-- `NDBEncoder.default` on a model instance: `to_dict`, filter by the output
projection, translate the names, attach `id`, and leaf-encode the values. -/
def encodeEntity (km : List (String × ModelCls)) (cls : ModelCls) (e : Entity) : Val :=
  let d0 := cls.props.map (fun p => (p.1, e.get p.1))
  let included := get_included_properties cls .output
  let d1 := d0.filter (fun p => decide (p.1 ∈ included))
  let d2 := translate_property_names d1 cls .output
  let d3 := aset d2 "id" (Val.str ((e.key.map (decodeKeyStr km)).getD "None"))
  Val.obj (encodeFields km d3)

/-- The payload of a successful endpoint response, before JSON encoding. -/
inductive ROut where
  | ent (e : Entity) : ROut
  | ents (es : List Entity) : ROut
  | page (results : List Entity) (nextCursor : Option Nat) : ROut
  | emptyBody : ROut
deriving DecidableEq, Repr

/-- An HTTP response produced by the handler: 200/400/405/403/401, or an
exception escaping the wrapper (HTTP 500). -/
inductive HResp where
  | success (r : ROut) : HResp
  | error400 (msg : String) : HResp
  | methodNotAllowed : HResp
  | permissionDenied : HResp
  | unauthorized : HResp
  | serverError (msg : String) : HResp
deriving DecidableEq, Repr

/-- The type of an (unwrapped) endpoint method body: it threads the store and
either returns a result or raises. -/
abbrev MethodBody :=
  Handler → Store → Req → Option Entity → Store × Except Exc ROut

/-- `GET` endpoint body: a single resolved entity is returned (through the
optional callback); otherwise filter, owner-restrict, order and fetch a
page. -/
def getBody : MethodBody := fun h s req model? =>
  match model? with
  | some m =>
    match h.get_callback_single with
    | some f => (s, .ok (.ent (f m)))
    | none => (s, .ok (.ent m))
  | none =>
    match _filter_query h s req with
    | .error e => (s, .error e)
    | .ok q0 =>
      match (if h.permLookup "GET" = some PERMISSION_OWNER_USER then
               match h.model.ownerProp, h.user with
               | some op, some usr =>
                 Except.ok (q0.filter (fun x => x.get op == Val.key usr.key))
               | none, _ => Except.error (Exc.other "AttributeError: user_owner_property")
               | _, none => Except.error (Exc.other "AttributeError: user")
             else Except.ok q0) with
      | .error e => (s, .error e)
      | .ok q1 =>
        match _order_query h req q1 with
        | .error e => (s, .error e)
        | .ok q2 =>
          match _fetch_query (engineFetchPage q2) req.limit req.cursor with
          | .error e => (s, .error e)
          | .ok (results, cur) =>
            match h.get_callback with
            | some f => (s, .ok (.page (f results) cur))
            | none => (s, .ok (.page results cur))

/-- `POST` endpoint body: reject a specific id, parse the body, build a new
entity, run the callback, persist; all construction errors are wrapped as
`Invalid JSON POST data`. -/
def postBody : MethodBody := fun h s req model? =>
  match model? with
  | some _ => (s, .error (.rest "Cannot POST to a specific model ID"))
  | none =>
    match req.body with
    | none => (s, .error (.rest "Invalid JSON POST data"))
    | some jd =>
      match (match _build_model_from_data h.user h.kindMap (objFields jd) h.model none with
             | .error e => Except.error e
             | .ok m =>
               match h.post_callback with
               | some f => f m jd
               | none => Except.ok m) with
      | .error e => (s, .error (.rest ("Invalid JSON POST data - " ++ e.msg)))
      | .ok m =>
        let r := sput s m
        (r.1, .ok (.ent r.2))

/-- The `retries=0` configuration of the `_multi_update_models` transaction
decorator: at most one attempt, no retry on conflict. -/
def multiUpdateTxnRetries : Nat := 0

/-- The `xg=True` configuration of the `_multi_update_models` transaction
decorator. -/
def multiUpdateTxnXG : Bool := true

/-- One element of a batch PUT, processed inside the transaction: require
`id`, resolve it against the transaction snapshot, check ownership under
`owner_user`, then build/apply the update and run the callback (whose errors
are wrapped as `Invalid JSON PUT data`).  Writes are buffered until commit,
so the snapshot is never modified. -/
def processBatchElem (h : Handler) (snapshot : Store) (item : Val) : Except Exc Entity :=
  let fields := objFields item
  if ahas fields "id" then
    let mid := (aget fields "id").getD Val.null
    match _model_id_to_model h snapshot mid with
    | .error e => .error e
    | .ok model? =>
      match (if h.permLookup "PUT" = some PERMISSION_OWNER_USER then
               match model?, h.user with
               | some m, some usr =>
                 match h.getModelOwner m with
                 | .error e => Except.error e
                 | .ok ov =>
                   if ov ≠ Val.key usr.key then
                     Except.error (Exc.rest ("Model id " ++ pyFormat mid ++ " is not owned by user"))
                   else Except.ok ()
               | none, _ => Except.error (Exc.other "AttributeError: NoneType")
               | _, none => Except.error (Exc.other "AttributeError: user")
             else Except.ok ()) with
      | .error e => .error e
      | .ok _ =>
        match (match _build_model_from_data h.user h.kindMap fields h.model model? with
               | .error e => Except.error e
               | .ok m1 =>
                 match h.put_callback with
                 | some f => f m1 item
                 | none => Except.ok m1) with
        | .error e => .error (.rest ("Invalid JSON PUT data - " ++ e.msg))
        | .ok m2 => .ok m2
  else .error (.rest ("Missing \"id\" argument for model"))

/-- `RESTHandlerClass._multi_update_models`: process the batch elements in
order against the transaction snapshot; the first failure aborts the whole
transaction. -/
def _multi_update_models (h : Handler) (snapshot : Store) (items : List Val) :
    Except Exc (List Entity) :=
  match items with
  | [] => .ok []
  | it :: rest =>
    match processBatchElem h snapshot it with
    | .error e => .error e
    | .ok m =>
      match _multi_update_models h snapshot rest with
      | .error e => .error e
      | .ok ms => .ok (m :: ms)

/-- Commit of a successful multi-update transaction: apply the buffered
writes in order. -/
def commitWrites (s : Store) (ms : List Entity) : Store :=
  ms.foldl (fun acc m => (sput acc m).1) s

/-- `PUT` endpoint body: parse the body; a collection PUT requires a JSON
array and runs the transactional multi-update (rolled back entirely on
error); a single PUT applies the payload onto the resolved entity. -/
def putBody : MethodBody := fun h s req model? =>
  match req.body with
  | none => (s, .error (.rest "Invalid JSON PUT data"))
  | some jd =>
    match model? with
    | none =>
      match jd with
      | .arr items =>
        match _multi_update_models h s items with
        | .error e => (s, .error e)
        | .ok ms => (commitWrites s ms, .ok (.ents ms))
      | _ => (s, .error (.rest "Invalid JSON PUT data"))
    | some m =>
      match (match _build_model_from_data h.user h.kindMap (objFields jd) h.model (some m) with
             | .error e => Except.error e
             | .ok m1 =>
               match h.put_callback with
               | some f => f m1 jd
               | none => Except.ok m1) with
      | .error e => (s, .error (.rest ("Invalid JSON PUT data - " ++ e.msg)))
      | .ok m2 =>
        let r := sput s m2
        (r.1, .ok (.ent r.2))

/-- Split a query snapshot into pages of `DEFAULT_MAX_QUERY_RESULTS`, as the
collection-DELETE `fetch_page` loop walks them. -/
def chunksOf1000 (l : List Entity) : List (List Entity) :=
  if l.isEmpty then []
  else l.take DEFAULT_MAX_QUERY_RESULTS :: chunksOf1000 (l.drop DEFAULT_MAX_QUERY_RESULTS)
termination_by l.length
decreasing_by
  simp_wf
  cases l with
  | nil => simp at *
  | cons a t => simp [DEFAULT_MAX_QUERY_RESULTS]; try omega

/-- The per-entity deletion path of a collection DELETE with a declared
callback: callback then delete, one at a time; an error stops the loop with
all prior deletions kept (no transaction). -/
def deleteOneByOne (f : Entity → Except Exc Unit) (s : Store) (page : List Entity) :
    Store × Except Exc (List Entity) :=
  match page with
  | [] => (s, .ok [])
  | m :: rest =>
    match f m with
    | .error e => (s, .error e)
    | .ok _ =>
      let s2 := sdel s m.key
      match deleteOneByOne f s2 rest with
      | (s3, .error e) => (s3, .error e)
      | (s3, .ok ms) => (s3, .ok (m :: ms))

/-- One page of the collection-DELETE loop: with a callback delete one at a
time, otherwise `ndb.delete_multi` on the whole page. -/
def deletePage (h : Handler) (s : Store) (page : List Entity) :
    Store × Except Exc (List Entity) :=
  match h.delete_callback with
  | none => (page.foldl (fun acc m => sdel acc m.key) s, .ok page)
  | some f => deleteOneByOne f s page

/-- The collection-DELETE page loop over the query snapshot. -/
def deleteChunks (h : Handler) (s : Store) (chunks : List (List Entity)) :
    Store × Except Exc (List Entity) :=
  match chunks with
  | [] => (s, .ok [])
  | pg :: rest =>
    match deletePage h s pg with
    | (s2, .error e) => (s2, .error e)
    | (s2, .ok ms) =>
      match deleteChunks h s2 rest with
      | (s3, .error e) => (s3, .error e)
      | (s3, .ok ms2) => (s3, .ok (ms ++ ms2))

/-- `DELETE` endpoint body: a single resolved entity is deleted after the
optional callback (errors wrapped as `Could not delete model`); a collection
DELETE deletes the whole (owner-scoped under `owner_user`) query, page by
page. -/
def deleteBody : MethodBody := fun h s req model? =>
  match model? with
  | some m =>
    match (match h.delete_callback with
           | some f => f m
           | none => Except.ok ()) with
    | .error e => (s, .error (.rest ("Could not delete model - " ++ e.msg)))
    | .ok _ => (sdel s m.key, .ok (.ent m))
  | none =>
    match (if h.permLookup "DELETE" = some PERMISSION_OWNER_USER then
             match h.model.ownerProp, h.user with
             | some op, some usr =>
               Except.ok ((modelQuery s h.model).filter (fun x => x.get op == Val.key usr.key))
             | none, _ => Except.error (Exc.other "AttributeError: user_owner_property")
             | _, none => Except.error (Exc.other "AttributeError: user")
           else Except.ok (modelQuery s h.model)) with
    | .error e => (s, .error e)
    | .ok q =>
      match deleteChunks h s (chunksOf1000 q) with
      | (s2, .error e) => (s2, .error e)
      | (s2, .ok ms) => (s2, .ok (.ents ms))

/-- `OPTIONS` endpoint body. -/
def optionsBody : MethodBody := fun _ s _ _ => (s, .ok .emptyBody)

/-- Run a method body and convert its outcome to an HTTP response:
`RESTException` becomes a 400 error response, anything else escapes the
wrapper as a server error. -/
def runBody (body : MethodBody) (h : Handler) (s : Store) (req : Req)
    (model? : Option Entity) : Store × HResp :=
  match body h s req model? with
  | (s2, .ok r) => (s2, .success r)
  | (s2, .error (.rest m)) => (s2, .error400 m)
  | (s2, .error (.other m)) => (s2, .serverError m)

/-- `rest_method_wrapper`: method support check, login check, admin check,
entity resolution, ownership check, then the wrapped method body. -/
def restMethodWrapper (methodName : String) (body : MethodBody)
    (h : Handler) (s : Store) (req : Req) (modelId : Option String) : Store × HResp :=
  match h.permLookup methodName with
  | none => (s, .methodNotAllowed)
  | some permission =>
    if (permission = PERMISSION_LOGGED_IN_USER ∨ permission = PERMISSION_OWNER_USER ∨
        permission = PERMISSION_ADMIN) ∧ h.user = none then
      (s, .unauthorized)
    else if permission = PERMISSION_ADMIN ∧ h.isUserAdmin = false then
      (s, .permissionDenied)
    else
      if (modelId.getD "") ≠ "" then
        match _model_id_to_model h s (Val.str (pyTail (modelId.getD ""))) with
        | .error (.rest m) => (s, .error400 m)
        | .error (.other m) => (s, .serverError m)
        | .ok model? =>
          if permission = PERMISSION_OWNER_USER then
            match model? with
            | some m =>
              match h.getModelOwner m, h.user with
              | .error e, _ => (s, .serverError e.msg)
              | .ok ov, some usr =>
                if ov ≠ Val.key usr.key then (s, .permissionDenied)
                else runBody body h s req model?
              | .ok _, none => (s, .serverError "AttributeError: user")
            | none => (s, .serverError "AttributeError: NoneType")
          else runBody body h s req model?
      else runBody body h s req none

/-- Request dispatch: route the HTTP method to its wrapped endpoint method. -/
def dispatch (h : Handler) (s : Store) (req : Req) (method : String)
    (modelId : Option String) : Store × HResp :=
  if method = "GET" then restMethodWrapper "GET" getBody h s req modelId
  else if method = "POST" then restMethodWrapper "POST" postBody h s req modelId
  else if method = "PUT" then restMethodWrapper "PUT" putBody h s req modelId
  else if method = "DELETE" then restMethodWrapper "DELETE" deleteBody h s req modelId
  else if method = "OPTIONS" then restMethodWrapper "OPTIONS" optionsBody h s req modelId
  else (s, .methodNotAllowed)

/-- The declared inclusion set of the claim: `included_<d>_properties ∪
included_properties` (empty when no `RESTMeta`). -/
def declaredIncludedSet (m : ModelCls) (d : Dir) : Finset String :=
  match m.meta with
  | some mc => (mc.includedDir d).toFinset ∪ mc.included_properties.toFinset
  | none => ∅

/-- The declared exclusion set of the claim: `excluded_<d>_properties ∪
excluded_properties` (empty when no `RESTMeta`). -/
def declaredExcludedSet (m : ModelCls) (d : Dir) : Finset String :=
  match m.meta with
  | some mc => (mc.excludedDir d).toFinset ∪ mc.excluded_properties.toFinset
  | none => ∅

/-- The built-in default exclusions of a direction. -/
def builtinExcludedSet (d : Dir) : Finset String :=
  match d with
  | .input => DEFAULT_EXCLUDED_INPUT_PROPERTIES.toFinset
  | .output => DEFAULT_EXCLUDED_OUTPUT_PROPERTIES.toFinset

/-- `includedProperties(M,d)` as the specification words it: the declared
inclusion sets — defaulting to all model properties when none is declared —
with the identifier force-included for `useInputId` input, minus the declared
exclusion sets plus built-in default exclusions. -/
def specIncludedProperties (m : ModelCls) (d : Dir) : Finset String :=
  let base :=
    if declaredIncludedSet m d = ∅ then m.propNames.toFinset else declaredIncludedSet m d
  let base2 := if d = .input ∧ m.useInputId then base ∪ {"id"} else base
  base2 \ (declaredExcludedSet m d ∪ builtinExcludedSet d)

theorem get_included_properties_eq_spec (m : ModelCls) (d : Dir) :
    get_included_properties m d = specIncludedProperties m d := by
  unfold get_included_properties specIncludedProperties declaredIncludedSet
    declaredExcludedSet builtinExcludedSet
  cases hm : m.meta with
  | none =>
    cases d <;> simp [ModelCls.useInputId, hm, Finset.sdiff_union_distrib]
    <;> ext x <;> simp
  | some mc =>
    cases d <;> simp [ModelCls.useInputId, hm]
    <;> by_cases hinc : (mc.includedDir .input).toFinset ∪ mc.included_properties.toFinset = ∅
    <;> by_cases huse : mc.use_input_id
    <;> simp_all [RMeta.includedDir]
    <;> ext x <;> simp <;> tauto

/-- C6: for every model `M` and direction `d`, `includedProperties(M,d)`
equals the declared inclusion sets (defaulting to all model properties when
none is declared, and with `id` force-included for input when `useInputId` is
set) minus the declared exclusion sets and the built-in default exclusions;
in particular the result excludes every declared excluded name and, when an
inclusion set is declared, contains only names from it (beyond the forced
identifier). -/
theorem claim_C6_included_properties (m : ModelCls) (d : Dir) :
    get_included_properties m d = specIncludedProperties m d ∧
    (∀ x ∈ declaredExcludedSet m d, x ∉ get_included_properties m d) ∧
    (declaredIncludedSet m d ≠ ∅ →
      get_included_properties m d ⊆
        declaredIncludedSet m d ∪
          (if d = Dir.input ∧ m.useInputId then {"id"} else ∅)) := by
  refine ⟨get_included_properties_eq_spec m d, ?_, ?_⟩
  · intro x hx
    rw [get_included_properties_eq_spec]
    unfold specIncludedProperties
    intro hmem
    exact (Finset.mem_sdiff.mp hmem).2 (Finset.mem_union.mpr (Or.inl hx))
  · intro hne
    rw [get_included_properties_eq_spec]
    unfold specIncludedProperties
    simp only [if_neg hne]
    intro x hx
    simp only [Finset.mem_sdiff] at hx
    by_cases hc : d = Dir.input ∧ m.useInputId
    · simp only [if_pos hc] at hx
      simp only [Finset.mem_union]
      rcases Finset.mem_union.mp hx.1 with h | h
      · exact Or.inl h
      · exact Or.inr (by rwa [if_pos hc])
    · simp only [if_neg hc] at hx
      exact Finset.mem_union.mpr (Or.inl hx.1)

/-- Concrete instantiation of the C6 theorem at a model declaring both
inclusion and exclusion sets for input. -/
theorem claim_C6_included_properties_witness :
    get_included_properties
        (ModelCls.mk "W6" (some { included_input_properties := ["a", "b"],
                                  excluded_properties := ["b"], use_input_id := true })
          [("a", .mk .stringP false), ("b", .mk .stringP false), ("c", .mk .stringP false)])
        Dir.input =
      specIncludedProperties
        (ModelCls.mk "W6" (some { included_input_properties := ["a", "b"],
                                  excluded_properties := ["b"], use_input_id := true })
          [("a", .mk .stringP false), ("b", .mk .stringP false), ("c", .mk .stringP false)])
        Dir.input ∧
    (∀ x ∈ declaredExcludedSet
        (ModelCls.mk "W6" (some { included_input_properties := ["a", "b"],
                                  excluded_properties := ["b"], use_input_id := true })
          [("a", .mk .stringP false), ("b", .mk .stringP false), ("c", .mk .stringP false)])
        Dir.input,
      x ∉ get_included_properties
        (ModelCls.mk "W6" (some { included_input_properties := ["a", "b"],
                                  excluded_properties := ["b"], use_input_id := true })
          [("a", .mk .stringP false), ("b", .mk .stringP false), ("c", .mk .stringP false)])
        Dir.input) ∧
    (declaredIncludedSet
        (ModelCls.mk "W6" (some { included_input_properties := ["a", "b"],
                                  excluded_properties := ["b"], use_input_id := true })
          [("a", .mk .stringP false), ("b", .mk .stringP false), ("c", .mk .stringP false)])
        Dir.input ≠ ∅ →
      get_included_properties
        (ModelCls.mk "W6" (some { included_input_properties := ["a", "b"],
                                  excluded_properties := ["b"], use_input_id := true })
          [("a", .mk .stringP false), ("b", .mk .stringP false), ("c", .mk .stringP false)])
        Dir.input ⊆
        declaredIncludedSet
          (ModelCls.mk "W6" (some { included_input_properties := ["a", "b"],
                                    excluded_properties := ["b"], use_input_id := true })
            [("a", .mk .stringP false), ("b", .mk .stringP false), ("c", .mk .stringP false)])
          Dir.input ∪
          (if Dir.input = Dir.input ∧
              (ModelCls.mk "W6" (some { included_input_properties := ["a", "b"],
                                        excluded_properties := ["b"], use_input_id := true })
                [("a", .mk .stringP false), ("b", .mk .stringP false),
                 ("c", .mk .stringP false)]).useInputId
           then {"id"} else ∅)) :=
  claim_C6_included_properties
    (ModelCls.mk "W6" (some { included_input_properties := ["a", "b"],
                              excluded_properties := ["b"], use_input_id := true })
      [("a", .mk .stringP false), ("b", .mk .stringP false), ("c", .mk .stringP false)])
    Dir.input

/-- C7: for every page fetch, a missing limit parameter uses the default
limit 1000; a limit that does not parse as a positive integer fails with a
`RESTException`; a cursor token that does not decode fails with a
`RESTException`; a cursor the engine rejects (`BadRequestError`) fails with a
`RESTException`; and on success the returned next cursor is `none` exactly
when no further page exists. -/
theorem claim_C7_fetch_query
    (fp : Nat → Option Nat → Except Unit (List Entity × Nat × Bool))
    (limitParam cursorParam : Option String) :
    (_fetch_query fp none cursorParam = fetchStep fp 1000 cursorParam) ∧
    (∀ s, limitParam = some s →
      (parseInt s = none ∨ (∃ n, parseInt s = some n ∧ n ≤ 0)) →
      _fetch_query fp limitParam cursorParam =
        .error (.rest ("Invalid \"limit\" parameter - " ++ s))) ∧
    (∀ s lim, computeLimit limitParam = .ok lim → cursorParam = some s →
      parseNat s = none →
      _fetch_query fp limitParam cursorParam =
        .error (.rest ("Invalid \"cursor\" argument - " ++ s))) ∧
    (∀ lim cur, computeLimit limitParam = .ok lim →
      computeCursor cursorParam = .ok cur → fp lim cur = .error () →
      _fetch_query fp limitParam cursorParam =
        .error (.rest ("Invalid \"cursor\" argument - " ++ cursorParam.getD "None"))) ∧
    (∀ lim cur res c more, computeLimit limitParam = .ok lim →
      computeCursor cursorParam = .ok cur → fp lim cur = .ok (res, c, more) →
      _fetch_query fp limitParam cursorParam = .ok (res, if more then some c else none) ∧
        ((if more then some c else none) = none ↔ more = false)) := by
  refine ⟨rfl, ?_, ?_, ?_, ?_⟩
  · rintro s rfl hbad
    unfold _fetch_query computeLimit
    rcases hbad with h | ⟨n, hn, hle⟩
    · simp [h]
    · simp [hn, hle]
  · rintro s lim hlim rfl hs
    unfold _fetch_query
    rw [hlim]
    unfold fetchStep computeCursor
    simp [hs]
  · intro lim cur hlim hcur hfp
    unfold _fetch_query
    rw [hlim]
    unfold fetchStep
    rw [hcur]
    simp [hfp]
  · intro lim cur res c more hlim hcur hfp
    constructor
    · unfold _fetch_query
      rw [hlim]
      unfold fetchStep
      rw [hcur]
      simp [hfp]
    · cases more <;> simp

/-- A sample entity for fetch witnesses. -/
def w7ent : Entity := ⟨"W7", some ⟨"W7", "1"⟩, [("name", .str "x")]⟩

/-- Concrete instantiations of the C7 theorem: default limit, a
non-integer limit, a non-positive limit, an undecodable cursor, an
engine-rejected cursor, and a successful fetch with no further page. -/
theorem claim_C7_fetch_query_witness :
    _fetch_query (engineFetchPage []) none none = fetchStep (engineFetchPage []) 1000 none ∧
    _fetch_query (engineFetchPage []) (some "abc") none =
      .error (.rest "Invalid \"limit\" parameter - abc") ∧
    _fetch_query (engineFetchPage []) (some "0") none =
      .error (.rest "Invalid \"limit\" parameter - 0") ∧
    _fetch_query (engineFetchPage []) (some "5") (some "zz") =
      .error (.rest "Invalid \"cursor\" argument - zz") ∧
    _fetch_query (fun _ _ => .error ()) (some "5") (some "3") =
      .error (.rest "Invalid \"cursor\" argument - 3") ∧
    _fetch_query (engineFetchPage [w7ent]) (some "5") none = .ok ([w7ent], none) := by
  refine ⟨(claim_C7_fetch_query (engineFetchPage []) none none).1,
    (claim_C7_fetch_query (engineFetchPage []) (some "abc") none).2.1 "abc" rfl
      (Or.inl (by decide)),
    (claim_C7_fetch_query (engineFetchPage []) (some "0") none).2.1 "0" rfl
      (Or.inr ⟨0, by decide, le_refl 0⟩),
    (claim_C7_fetch_query (engineFetchPage []) (some "5") (some "zz")).2.2.1 "zz" 5
      (by decide) rfl (by decide), ?_, ?_⟩
  · exact (claim_C7_fetch_query (fun _ _ => .error ()) (some "5") (some "3")).2.2.2.1 5
      (some 3) (by decide) (by decide) rfl
  · have h := (claim_C7_fetch_query (engineFetchPage [w7ent]) (some "5") none).2.2.2.2
      5 none [w7ent] 1 false (by decide) rfl (by rfl)
    simpa using h.1

/-- The gate-relevant classification of a response: 405, 401, 403, or
"allowed" (the request proceeded to its endpoint body). -/
inductive GateOutcome where
  | methodNotAllowed : GateOutcome
  | unauthorized : GateOutcome
  | forbidden : GateOutcome
  | allowed : GateOutcome
deriving DecidableEq, Repr

/-- Classify a handler response as a gate outcome. -/
def respOutcome : HResp → GateOutcome
  | .methodNotAllowed => .methodNotAllowed
  | .unauthorized => .unauthorized
  | .permissionDenied => .forbidden
  | _ => .allowed

/-- The permission rules in the order the claim states them: no declared
permission entry is 405; a level requiring login without a principal is 401;
admin level without an admin principal is 403; owner level with an addressed
entity whose owner reference differs from the principal's is 403; otherwise
the request is allowed. -/
def specGate (permEntry : Option String) (user : Option URec) (admin : Bool)
    (targetOwner : Option Val) : GateOutcome :=
  match permEntry with
  | none => .methodNotAllowed
  | some p =>
    if (p = PERMISSION_LOGGED_IN_USER ∨ p = PERMISSION_OWNER_USER ∨ p = PERMISSION_ADMIN) ∧
        user = none then .unauthorized
    else if p = PERMISSION_ADMIN ∧ admin = false then .forbidden
    else
      match targetOwner, user with
      | some ov, some u =>
        if p = PERMISSION_OWNER_USER ∧ ov ≠ Val.key u.key then .forbidden else .allowed
      | _, _ => .allowed

/-- The owner value of an addressed entity (defaulting when the model
declares no owner property; the defaulted case is excluded by the
registration invariant hypothesis). -/
def ownerValD (h : Handler) (e : Entity) : Val :=
  match h.model.ownerProp with
  | some p => e.get p
  | none => Val.null

theorem respOutcome_runBody (b : MethodBody) (h : Handler) (s : Store) (req : Req)
    (model? : Option Entity) : respOutcome (runBody b h s req model?).2 = .allowed := by
  unfold runBody
  rcases b h s req model? with ⟨s2, r⟩
  rcases r with r | r
  · cases r <;> simp [respOutcome]
  · simp [respOutcome]

/-- C4: for every request, the gate on the method wrapper evaluates its rules
in order — undeclared method: 405; login-requiring level without principal:
401; admin level with non-admin principal: 403; owner level with an addressed
entity owned by someone else: 403; otherwise allowed.  The hypotheses scope
the statement to requests whose addressed id (if any) resolves, and to the
registration invariant that owner permission implies a declared owner
property. -/
theorem claim_C4_permission_gate (methodName : String) (body : MethodBody)
    (h : Handler) (s : Store) (req : Req) (modelId : Option String) (tgtE : Entity)
    (hres : (modelId.getD "") ≠ "" →
      _model_id_to_model h s (Val.str (pyTail (modelId.getD ""))) = .ok (some tgtE))
    (hvalid : h.permLookup methodName = some PERMISSION_OWNER_USER →
      h.model.ownerProp.isSome) :
    respOutcome (restMethodWrapper methodName body h s req modelId).2 =
      specGate (h.permLookup methodName) h.user h.isUserAdmin
        (if (modelId.getD "") = "" then none else some (ownerValD h tgtE)) := by
  unfold restMethodWrapper specGate
  cases hperm : h.permLookup methodName with
  | none => simp [respOutcome]
  | some p =>
    by_cases h1 : (p = PERMISSION_LOGGED_IN_USER ∨ p = PERMISSION_OWNER_USER ∨
        p = PERMISSION_ADMIN) ∧ h.user = none
    · simp [h1, respOutcome]
    · simp only [if_neg h1]
      by_cases h2 : p = PERMISSION_ADMIN ∧ h.isUserAdmin = false
      · simp [h2, respOutcome]
      · simp only [if_neg h2]
        by_cases ht : (modelId.getD "") = ""
        · simp only [ht, ite_true, if_pos]
          simp [ht, respOutcome_runBody]
        · simp only [if_neg ht]
          rw [hres ht]
          by_cases hp : p = PERMISSION_OWNER_USER
          · rcases Option.isSome_iff_exists.mp (hvalid (hp ▸ hperm)) with ⟨op, hop⟩
            cases hu : h.user with
            | none => exact absurd ⟨Or.inr (Or.inl hp), hu⟩ h1
            | some usr =>
              unfold Handler.getModelOwner
              rw [hop]
              simp only [hu]
              by_cases ho : tgtE.get op ≠ Val.key usr.key
              · simp [hp, ho, ht, respOutcome, ownerValD, hop]
              · simp [hp, ho, ht, respOutcome_runBody, ownerValD, hop]
          · cases hu : h.user with
            | none => simp [hp, ht, respOutcome_runBody]
            | some usr => simp [hp, ht, respOutcome_runBody]

/-- Fixture: the user model, with an admin flag. -/
def userModelF : ModelCls :=
  .mk "MyUser" (some { admin_property := some "is_admin" })
    [("is_admin", .mk .boolP false)]

/-- Fixture: a model declaring `user_owner_property`. -/
def ownerModelF : ModelCls :=
  .mk "MyModel" (some { user_owner_property := some "owner" })
    [("owner", .mk (.keyP (some "MyUser")) false), ("name", .mk .stringP false)]

/-- Fixture user keys: principals P, V and an admin A. -/
def pKeyF : NKey := ⟨"MyUser", "p"⟩

/-- Fixture: second principal. -/
def vKeyF : NKey := ⟨"MyUser", "v"⟩

/-- Fixture: admin principal. -/
def aKeyF : NKey := ⟨"MyUser", "a"⟩

/-- Fixture kind registry. -/
def kmF : List (String × ModelCls) := [("MyUser", userModelF), ("MyModel", ownerModelF)]

/-- Fixture: an entity owned by P. -/
def eUF : Entity :=
  ⟨"MyModel", some ⟨"MyModel", "1"⟩, [("owner", .key pKeyF), ("name", .str "mine")]⟩

/-- Fixture: an entity owned by V. -/
def eVF : Entity :=
  ⟨"MyModel", some ⟨"MyModel", "2"⟩, [("owner", .key vKeyF), ("name", .str "theirs")]⟩

/-- Fixture store holding the two entities. -/
def sF : Store := ⟨[eUF, eVF], 0⟩

/-- Fixture handler for the gate scenario: `GET: anyone, POST:
logged_in_user` and no current principal. -/
def h4F : Handler :=
  { model := ownerModelF
    permissions := mkPermissions [("GET", PERMISSION_ANYONE), ("POST", PERMISSION_LOGGED_IN_USER)]
    user := none
    kindMap := kmF }

/-- Concrete instantiation of the C4 theorem: `permissions={GET: anyone,
POST: logged_in_user}`, no principal, `POST /resource` with a JSON body is
classified by the spec rules — and indeed yields 401. -/
theorem claim_C4_permission_gate_witness :
    respOutcome (restMethodWrapper "POST" postBody h4F sF
        { body := some (.obj [("name", .str "x")]) } none).2 =
      specGate (h4F.permLookup "POST") h4F.user h4F.isUserAdmin none ∧
    (restMethodWrapper "POST" postBody h4F sF
        { body := some (.obj [("name", .str "x")]) } none).2 = HResp.unauthorized := by
  constructor
  · have h := claim_C4_permission_gate "POST" postBody h4F sF
      { body := some (.obj [("name", .str "x")]) } none eUF
      (fun hc => absurd rfl hc) (by decide)
    simpa using h
  · rfl

theorem aget_append_single (d : List (String × Val)) (k : String) (v : Val) (n : String)
    (h : n ≠ k) : aget (d ++ [(k, v)]) n = aget d n := by
  unfold aget
  induction d with
  | nil => simp [List.find?, h.symm]
  | cons p rest ih =>
    by_cases hp : p.1 = n
    · simp [List.find?_cons, hp]
    · simp only [List.cons_append, List.find?_cons]
      rw [show (decide (p.1 = n)) = false by simp [hp]]
      simpa using ih

theorem ahas_append_single (d : List (String × Val)) (k : String) (v : Val) (n : String)
    (h : n ≠ k) : ahas (d ++ [(k, v)]) n = ahas d n := by
  unfold ahas
  simp [List.any_append, h.symm]

theorem walkProps_append_unknown (u : Option URec) (km : List (String × ModelCls))
    (data : List (String × Val)) (props : List (String × PropD)) (k : String) (v : Val)
    (h : ∀ pd ∈ props, pd.1 ≠ k) :
    walkProps u km (data ++ [(k, v)]) props = walkProps u km data props := by
  induction props with
  | nil => simp [walkProps]
  | cons hd rest ih =>
    rcases hd with ⟨name, pd⟩
    rcases pd with ⟨pt, rep⟩
    have hne : name ≠ k := h (name, .mk pt rep) (by simp)
    have hrest : ∀ pd ∈ rest, pd.1 ≠ k := fun pd hm => h pd (by simp [hm])
    rw [walkProps, walkProps, ahas_append_single data k v name hne,
      aget_append_single data k v name hne, ih hrest]

/-- C10 (amended): a key of the translated input data that does not name a
declared property of the target model — and is not the identifier key `id`
of a `use_input_id` model — is ignored by entity construction: adding it
leaves the built entity (and any error) unchanged. -/
theorem claim_C10_unknown_keys_ignored (u : Option URec) (km : List (String × ModelCls))
    (data : List (String × Val)) (cls : ModelCls) (model? : Option Entity)
    (k : String) (v : Val)
    (hk : k ∉ cls.propNames) (hid : cls.useInputId = true → k ≠ "id") :
    _build_from_translated u km (data ++ [(k, v)]) cls model? =
      _build_from_translated u km data cls model? := by
  have hprops : ∀ pd ∈ cls.props, pd.1 ≠ k := by
    intro pd hm
    intro hcontra
    exact hk (hcontra ▸ List.mem_map_of_mem (fun p => p.1) hm)
  rw [_build_from_translated, _build_from_translated,
    walkProps_append_unknown u km data cls.props k v hprops]
  rcases hw : walkProps u km data cls.props with e | input0
  all_goals simp only [hw]
  · by_cases hui : model?.isNone && cls.useInputId
    · have hkid : k ≠ "id" := hid (by
        rcases Bool.and_eq_true_iff.mp hui with ⟨_, h2⟩
        exact h2)
      rw [if_pos hui, if_pos hui,
        ahas_append_single data k v "id" (Ne.symm hkid),
        aget_append_single data k v "id" (Ne.symm hkid)]
    · rw [if_neg hui, if_neg hui]


/-- Fixture model with a client-supplied identifier. -/
def c10Model : ModelCls := .mk "C10M" (some { use_input_id := true })
  [("name", .mk .stringP false)]

/-- C10 counterexample: for a `use_input_id` model, the input key `id` does
not name a declared property, yet it is not silently ignored — it determines
the identifier of the built entity, and removing it turns success into an
error. -/
theorem claim_C10_counterexample :
    "id" ∉ c10Model.propNames ∧
    _build_model_from_data none kmF [("id", .str "a")] c10Model none =
      .ok ⟨"C10M", some ⟨"C10M", "a"⟩, []⟩ ∧
    _build_model_from_data none kmF [] c10Model none =
      .error (.rest "id field is required") := by
  refine ⟨by decide, ?_, ?_⟩ <;>
  simp +decide [_build_model_from_data, _build_from_translated, walkProps, coerceList,
    _value_to_property, translate_property_names, translationTable, translateStep,
    tupdate, tset, tget, c10Model, ModelCls.props, ModelCls.meta, ModelCls.useInputId,
    ModelCls.propNames, ModelCls.kind, ModelCls.ownerProp, aget, ahas, aset, adel,
    objFields, entityNew, entityPopulate, get_included_properties, RMeta.includedDir,
    RMeta.excludedDir, RMeta.translateDir, DEFAULT_EXCLUDED_INPUT_PROPERTIES]

/-- Concrete instantiation of the amended C10 theorem: an unknown key `zzz`
added to a payload leaves entity construction unchanged. -/
theorem claim_C10_unknown_keys_ignored_witness :
    _build_from_translated (some ⟨pKeyF, false⟩) kmF
        ([("name", .str "x")] ++ [("zzz", .int 1)]) ownerModelF none =
      _build_from_translated (some ⟨pKeyF, false⟩) kmF
        [("name", .str "x")] ownerModelF none :=
  claim_C10_unknown_keys_ignored (some ⟨pKeyF, false⟩) kmF
    [("name", .str "x")] ownerModelF none "zzz" (.int 1)
    (by decide) (by decide)

theorem aget_pair_cons (q : String × Val) (rest : List (String × Val)) (n : String) :
    aget (q :: rest) n = if q.1 = n then some q.2 else aget rest n := by
  unfold aget
  simp only [List.find?_cons]
  by_cases h : q.1 = n
  · simp [h]
  · simp [h]

theorem ahas_cons (q : String × Val) (rest : List (String × Val)) (n : String) :
    ahas (q :: rest) n = (decide (q.1 = n) || ahas rest n) := by
  unfold ahas
  simp [List.any_cons]

theorem aget_replace (d : List (String × Val)) (k : String) (v : Val) (n : String) :
    aget (d.map (fun p => if p.1 = k then (k, v) else p)) n =
      if k = n then (if ahas d k then some v else none) else aget d n := by
  induction d with
  | nil =>
    by_cases h : k = n <;> simp [aget, ahas, List.find?, h]
  | cons p rest ih =>
    simp only [List.map_cons]
    rw [aget_pair_cons, aget_pair_cons, ahas_cons]
    by_cases hpk : p.1 = k
    · by_cases hkn : k = n
      · simp [hpk, hkn]
      · have hpn : ¬p.1 = n := fun hc => hkn (hpk ▸ hc)
        simp [hpk, hkn, hpn, ih]
    · by_cases hkn : k = n
      · have hpn : ¬p.1 = n := fun hc => hpk (hkn ▸ hc)
        rw [hkn] at ih
        simp [hpk, hkn, hpn, ih]
      · by_cases hpn : p.1 = n
        · have hkn2 : ¬k = n := fun hc => hpk (hpn.trans (Eq.symm hc))
          have hnk : ¬n = k := fun hc => hkn2 (Eq.symm hc)
          simp [hpk, hpn, hkn2, hnk]
        · simp [hpk, hkn, hpn, ih]

theorem aget_append_self (d : List (String × Val)) (k : String) (v : Val)
    (h : ahas d k = false) : aget (d ++ [(k, v)]) k = some v := by
  induction d with
  | nil => simp [aget, List.find?]
  | cons p rest ih =>
    rw [ahas_cons] at h
    simp only [Bool.or_eq_false_iff, decide_eq_false_iff_not] at h
    simp only [List.cons_append]
    rw [aget_pair_cons]
    simp only [if_neg h.1]
    exact ih h.2

theorem aget_aset (d : List (String × Val)) (k : String) (v : Val) (n : String) :
    aget (aset d k v) n = if k = n then some v else aget d n := by
  unfold aset
  by_cases hh : ahas d k
  · rw [if_pos hh, aget_replace]
    by_cases hkn : k = n
    · rw [hkn] at hh
      simp [hkn, hh]
    · simp [hkn, hh]
  · rw [if_neg hh]
    by_cases hkn : k = n
    · rw [if_pos hkn, ← hkn]
      exact aget_append_self d k v (by simpa using hh)
    · rw [if_neg hkn]
      exact aget_append_single d k v n (fun hc => hkn (Eq.symm hc))

theorem aget_aset_self (d : List (String × Val)) (k : String) (v : Val) :
    aget (aset d k v) k = some v := by
  rw [aget_aset]
  simp

theorem aget_aset_ne (d : List (String × Val)) (k : String) (v : Val) (n : String)
    (h : n ≠ k) : aget (aset d k v) n = aget d n := by
  rw [aget_aset, if_neg (fun hc => h (Eq.symm hc))]

theorem aget_not_mem (d : List (String × Val)) (n : String)
    (h : n ∉ d.map (fun p => p.1)) : aget d n = none := by
  induction d with
  | nil => simp [aget, List.find?]
  | cons p rest ih =>
    simp only [List.map_cons, List.mem_cons, not_or] at h
    rw [aget_pair_cons]
    simp only [if_neg (fun hc => h.1 (Eq.symm hc))]
    exact ih h.2

theorem aget_foldl_aset (l ps : List (String × Val)) (n : String)
    (hnd : (l.map (fun p => p.1)).Nodup) :
    aget (l.foldl (fun a p => aset a p.1 p.2) ps) n =
      match aget l n with
      | some v => some v
      | none => aget ps n := by
  induction l generalizing ps with
  | nil => simp [aget, List.find?]
  | cons p rest ih =>
    rcases p with ⟨k, v⟩
    simp only [List.map_cons, List.nodup_cons] at hnd
    simp only [List.foldl_cons]
    rw [ih (aset ps k v) hnd.2, aget_pair_cons]
    by_cases hn : k = n
    · simp only [if_pos hn]
      rw [show aget rest n = none from by rw [← hn]; exact aget_not_mem rest k hnd.1]
      rw [← hn, aget_aset_self]
    · simp only [if_neg hn]
      cases hr : aget rest n with
      | some w => rfl
      | none => rw [aget_aset ps k v n, if_neg hn]

theorem aget_filter_pos (l : List (String × Val)) (q : String → Bool) (n : String)
    (h : q n = true) : aget (l.filter (fun p => q p.1)) n = aget l n := by
  induction l with
  | nil => rfl
  | cons p rest ih =>
    rcases p with ⟨k, v⟩
    simp only [List.filter_cons]
    by_cases hq : q k
    · rw [if_pos (by simpa using hq)]
      rw [aget_pair_cons, aget_pair_cons]
      by_cases hk : k = n
      · simp [hk]
      · simp [hk, ih]
    · rw [if_neg (by simpa using hq)]
      have hk : k ≠ n := fun hc => hq (by rw [hc]; exact (by simpa using h))
      rw [aget_pair_cons, if_neg hk, ih]

theorem aget_filter_neg (l : List (String × Val)) (q : String → Bool) (n : String)
    (h : q n = false) : aget (l.filter (fun p => q p.1)) n = none := by
  induction l with
  | nil => rfl
  | cons p rest ih =>
    rcases p with ⟨k, v⟩
    simp only [List.filter_cons]
    by_cases hq : q k
    · rw [if_pos (by simpa using hq)]
      have hk : k ≠ n := fun hc => by
        rw [hc] at hq
        rw [h] at hq
        cases hq
      rw [aget_pair_cons, if_neg hk]
      exact ih
    · rw [if_neg (by simpa using hq)]
      exact ih

theorem aget_foldl_aset_none (l ps : List (String × Val)) (n : String)
    (h : aget l n = none) : aget (l.foldl (fun a p => aset a p.1 p.2) ps) n = aget ps n := by
  induction l generalizing ps with
  | nil => rfl
  | cons p rest ih =>
    rcases p with ⟨k, v⟩
    rw [aget_pair_cons] at h
    by_cases hk : k = n
    · rw [if_pos hk] at h
      cases h
    · rw [if_neg hk] at h
      simp only [List.foldl_cons]
      rw [ih (aset ps k v) h, aget_aset, if_neg hk]

theorem walkProps_ok_not_declared (u : Option URec) (km : List (String × ModelCls))
    (data : List (String × Val)) (props : List (String × PropD))
    (out : List (String × Val)) (hw : walkProps u km data props = .ok out) (n : String)
    (hn : n ∉ props.map (fun p => p.1)) : aget out n = none := by
  induction props generalizing out with
  | nil =>
    rw [walkProps] at hw
    cases hw
    rfl
  | cons hd rest ih =>
    rcases hd with ⟨name, pd⟩
    rw [walkProps] at hw
    simp only [List.map_cons, List.mem_cons, not_or] at hn
    by_cases hhas : ahas data name
    · rw [if_pos hhas] at hw
      cases hc : coerceProp u km ((aget data name).getD Val.null) pd with
      | error e => rw [hc] at hw; cases hw
      | ok v2 =>
        rw [hc] at hw
        cases hwr : walkProps u km data rest with
        | error e => rw [hwr] at hw; cases hw
        | ok restOut =>
          rw [hwr] at hw
          cases hw
          rw [aget_pair_cons, if_neg (fun hcx => hn.1 (Eq.symm hcx))]
          exact ih restOut hwr hn.2
    · rw [if_neg hhas] at hw
      exact ih out hw hn.2

theorem walkProps_ok_not_present (u : Option URec) (km : List (String × ModelCls))
    (data : List (String × Val)) (props : List (String × PropD))
    (out : List (String × Val)) (hw : walkProps u km data props = .ok out) (n : String)
    (hn : ahas data n = false) : aget out n = none := by
  induction props generalizing out with
  | nil =>
    rw [walkProps] at hw
    cases hw
    rfl
  | cons hd rest ih =>
    rcases hd with ⟨name, pd⟩
    rw [walkProps] at hw
    by_cases hhas : ahas data name
    · have hne : name ≠ n := fun hc => by rw [hc] at hhas; rw [hhas] at hn; cases hn
      rw [if_pos hhas] at hw
      cases hc : coerceProp u km ((aget data name).getD Val.null) pd with
      | error e => rw [hc] at hw; cases hw
      | ok v2 =>
        rw [hc] at hw
        cases hwr : walkProps u km data rest with
        | error e => rw [hwr] at hw; cases hw
        | ok restOut =>
          rw [hwr] at hw
          cases hw
          rw [aget_pair_cons, if_neg hne]
          exact ih restOut hwr
    · rw [if_neg hhas] at hw
      exact ih out hw

theorem walkProps_ok_present (u : Option URec) (km : List (String × ModelCls))
    (data : List (String × Val)) (props : List (String × PropD))
    (out : List (String × Val)) (hnd : (props.map (fun p => p.1)).Nodup)
    (hw : walkProps u km data props = .ok out) (n : String) (pd : PropD)
    (hmem : (n, pd) ∈ props) (hhasn : ahas data n = true) :
    ∃ v2, coerceProp u km ((aget data n).getD Val.null) pd = .ok v2 ∧
      aget out n = some v2 := by
  induction props generalizing out with
  | nil => cases hmem
  | cons hd rest ih =>
    rcases hd with ⟨name, pd0⟩
    rw [walkProps] at hw
    simp only [List.map_cons, List.nodup_cons] at hnd
    rcases List.mem_cons.mp hmem with heq | hrest
    · injection heq with h1 h2
      subst h1
      subst h2
      rw [if_pos hhasn] at hw
      cases hc : coerceProp u km ((aget data n).getD Val.null) pd with
      | error e => rw [hc] at hw; cases hw
      | ok v2 =>
        rw [hc] at hw
        cases hwr : walkProps u km data rest with
        | error e => rw [hwr] at hw; cases hw
        | ok restOut =>
          rw [hwr] at hw
          cases hw
          exact ⟨v2, rfl, by rw [aget_pair_cons]; simp⟩
    · have hname : name ≠ n := by
        intro hc
        exact hnd.1 (hc ▸ List.mem_map_of_mem (fun p => p.1) hrest)
      by_cases hhas : ahas data name
      · rw [if_pos hhas] at hw
        cases hc : coerceProp u km ((aget data name).getD Val.null) pd0 with
        | error e => rw [hc] at hw; cases hw
        | ok v2 =>
          rw [hc] at hw
          cases hwr : walkProps u km data rest with
          | error e => rw [hwr] at hw; cases hw
          | ok restOut =>
            rw [hwr] at hw
            cases hw
            rcases ih restOut hnd.2 hwr hrest with ⟨w, hcw, hgw⟩
            exact ⟨w, hcw, by rw [aget_pair_cons, if_neg hname]; exact hgw⟩
      · rw [if_neg hhas] at hw
        exact ih out hnd.2 hw hrest

theorem build_update_inversion (u : Option URec) (km : List (String × ModelCls))
    (data : List (String × Val)) (cls : ModelCls) (m e : Entity)
    (hok : _build_from_translated u km data cls (some m) = .ok e) :
    ∃ input0, walkProps u km data cls.props = .ok input0 ∧
      e = ⟨m.kind, m.key,
        (input0.filter
            (fun p => decide (p.1 ∈ get_included_properties cls Dir.input))).foldl
          (fun a p => aset a p.1 p.2) m.props⟩ := by
  cases hw : walkProps u km data cls.props with
  | error e2 =>
    rw [_build_from_translated, hw] at hok
    cases hok
  | ok input0 =>
    have hstep : _build_from_translated u km data cls (some m) =
        entityPopulate m cls
          (input0.filter
            (fun p => decide (p.1 ∈ get_included_properties cls Dir.input))) := by
      rw [_build_from_translated, hw]
      rfl
    rw [hstep] at hok
    unfold entityPopulate at hok
    by_cases hall : ((input0.filter
        (fun p => decide (p.1 ∈ get_included_properties cls Dir.input))).all
      (fun p => cls.propNames.contains p.1))
    · rw [if_pos hall] at hok
      cases hok
      exact ⟨input0, rfl, rfl⟩
    · rw [if_neg hall] at hok
      cases hok

theorem walkProps_keys_sublist (u : Option URec) (km : List (String × ModelCls))
    (data : List (String × Val)) (props : List (String × PropD))
    (out : List (String × Val)) (hw : walkProps u km data props = .ok out) :
    (out.map (fun p => p.1)).Sublist (props.map (fun p => p.1)) := by
  induction props generalizing out with
  | nil =>
    rw [walkProps] at hw
    cases hw
    simp
  | cons hd rest ih =>
    rcases hd with ⟨name, pd⟩
    rw [walkProps] at hw
    by_cases hhas : ahas data name
    · rw [if_pos hhas] at hw
      cases hc : coerceProp u km ((aget data name).getD Val.null) pd with
      | error e => rw [hc] at hw; cases hw
      | ok v2 =>
        rw [hc] at hw
        cases hwr : walkProps u km data rest with
        | error e => rw [hwr] at hw; cases hw
        | ok restOut =>
          rw [hwr] at hw
          cases hw
          simpa using List.Sublist.cons₂ name (ih restOut hwr)
    · rw [if_neg hhas] at hw
      exact List.Sublist.cons name (ih out hw)

/-- C8 (amended): a single-entity PUT applies the payload as an update: the
identifier is unchanged, properties not named in the (name-translated)
payload retain their prior values, as do properties that are not declared or
not accepted by the input projection; a named, declared, input-accepted
property takes the coerced payload value. -/
theorem claim_C8_put_is_update (u : Option URec) (km : List (String × ModelCls))
    (data0 : List (String × Val)) (cls : ModelCls) (m e : Entity)
    (hnd : (cls.props.map (fun p => p.1)).Nodup)
    (hok : _build_model_from_data u km data0 cls (some m) = .ok e) :
    e.kind = m.kind ∧ e.key = m.key ∧
    (∀ n, ahas (translate_property_names data0 cls Dir.input) n = false →
      e.get n = m.get n) ∧
    (∀ n, n ∉ cls.propNames → e.get n = m.get n) ∧
    (∀ n, decide (n ∈ get_included_properties cls Dir.input) = false →
      e.get n = m.get n) ∧
    (∀ n pd v2, (n, pd) ∈ cls.props →
      ahas (translate_property_names data0 cls Dir.input) n = true →
      n ∈ get_included_properties cls Dir.input →
      coerceProp u km
          ((aget (translate_property_names data0 cls Dir.input) n).getD Val.null) pd =
        .ok v2 →
      e.get n = v2) := by
  rw [_build_model_from_data] at hok
  obtain ⟨input0, hw, he⟩ :=
    build_update_inversion u km (translate_property_names data0 cls Dir.input) cls m e hok
  subst he
  have hnd0 : (input0.map (fun p => p.1)).Nodup :=
    hnd.sublist (walkProps_keys_sublist u km _ cls.props input0 hw)
  refine ⟨rfl, rfl, ?_, ?_, ?_, ?_⟩
  · intro n hnp
    have h0 : aget input0 n = none := walkProps_ok_not_present u km _ cls.props input0 hw n hnp
    have h2 : aget (input0.filter
        (fun p => decide (p.1 ∈ get_included_properties cls Dir.input))) n = none := by
      by_cases hq : decide (n ∈ get_included_properties cls Dir.input) = true
      · rw [aget_filter_pos input0 (fun k => decide (k ∈ get_included_properties cls Dir.input)) n hq]; exact h0
      · exact aget_filter_neg input0 (fun k => decide (k ∈ get_included_properties cls Dir.input)) n (by simpa using hq)
    show (aget _ n).getD Val.null = (aget m.props n).getD Val.null
    rw [aget_foldl_aset_none _ m.props n h2]
  · intro n hnp
    have h0 : aget input0 n = none := walkProps_ok_not_declared u km _ cls.props input0 hw n
      (by simpa [ModelCls.propNames] using hnp)
    have h2 : aget (input0.filter
        (fun p => decide (p.1 ∈ get_included_properties cls Dir.input))) n = none := by
      by_cases hq : decide (n ∈ get_included_properties cls Dir.input) = true
      · rw [aget_filter_pos input0 (fun k => decide (k ∈ get_included_properties cls Dir.input)) n hq]; exact h0
      · exact aget_filter_neg input0 (fun k => decide (k ∈ get_included_properties cls Dir.input)) n (by simpa using hq)
    show (aget _ n).getD Val.null = (aget m.props n).getD Val.null
    rw [aget_foldl_aset_none _ m.props n h2]
  · intro n hq
    have h2 : aget (input0.filter
        (fun p => decide (p.1 ∈ get_included_properties cls Dir.input))) n = none :=
      aget_filter_neg input0 (fun k => decide (k ∈ get_included_properties cls Dir.input)) n hq
    show (aget _ n).getD Val.null = (aget m.props n).getD Val.null
    rw [aget_foldl_aset_none _ m.props n h2]
  · intro n pd v2 hmem hhas hinc hco
    obtain ⟨w, hcw, hgw⟩ :=
      walkProps_ok_present u km _ cls.props input0 hnd hw n pd hmem hhas
    have hv : w = v2 := by
      rw [hco] at hcw
      cases hcw
      rfl
    subst hv
    have h2 : aget (input0.filter
        (fun p => decide (p.1 ∈ get_included_properties cls Dir.input))) n = some w := by
      rw [aget_filter_pos input0
        (fun k => decide (k ∈ get_included_properties cls Dir.input)) n
        (by simpa using hinc)]
      exact hgw
    have hnd2 : ((input0.filter
        (fun p => decide (p.1 ∈ get_included_properties cls Dir.input))).map
          (fun p => p.1)).Nodup :=
      hnd0.sublist (List.Sublist.map (fun p => p.1) (List.filter_sublist input0))
    show (aget _ n).getD Val.null = w
    rw [aget_foldl_aset _ m.props n hnd2, h2]
    rfl

/-- Fixture model for C8: property `p` is excluded from input. -/
def c8Model : ModelCls := .mk "C8M" (some { excluded_input_properties := ["p"] })
  [("p", .mk .stringP false)]

/-- Fixture entity for C8. -/
def c8Ent : Entity := ⟨"C8M", some ⟨"C8M", "1"⟩, [("p", .str "old")]⟩

/-- C8 counterexample: a property named in the PUT payload but excluded from
input does not take the coerced payload value — the update succeeds and the
prior stored value is retained. -/
theorem claim_C8_counterexample :
    _build_model_from_data none kmF [("p", .str "new")] c8Model (some c8Ent) =
      .ok c8Ent ∧
    c8Ent.get "p" = .str "old" ∧ Val.str "old" ≠ Val.str "new" := by
  refine ⟨?_, by decide, by decide⟩
  have hw : walkProps none kmF [("p", .str "new")] c8Model.props =
      .ok [("p", .str "new")] := by
    simp +decide [walkProps, coerceProp, _value_to_property, aget, ahas,
      ModelCls.props, c8Model]
  rw [_build_model_from_data,
    show translate_property_names [("p", .str "new")] c8Model Dir.input =
      [("p", .str "new")] from rfl,
    _build_from_translated, hw]
  rfl

/-- The updated entity of the C8 witness scenario. -/
def c8ResEnt : Entity :=
  ⟨"MyModel", some ⟨"MyModel", "1"⟩, [("owner", Val.key pKeyF), ("name", Val.str "upd")]⟩

/-- Concrete instantiation of the amended C8 theorem: a PUT payload naming
only `name` updates `name` to the coerced value and leaves `owner` at its
prior value. -/
theorem claim_C8_put_is_update_witness :
    c8ResEnt.get "owner" = eUF.get "owner" ∧ c8ResEnt.get "name" = Val.str "upd" := by
  have hw : walkProps (some ⟨pKeyF, false⟩) kmF [("name", Val.str "upd")]
      ownerModelF.props = .ok [("name", Val.str "upd")] := by
    simp +decide [walkProps, coerceProp, _value_to_property, aget, ahas,
      ModelCls.props, ownerModelF]
  have hok : _build_model_from_data (some ⟨pKeyF, false⟩) kmF [("name", Val.str "upd")]
      ownerModelF (some eUF) = .ok c8ResEnt := by
    rw [_build_model_from_data,
      show translate_property_names [("name", Val.str "upd")] ownerModelF Dir.input =
        [("name", Val.str "upd")] from rfl,
      _build_from_translated, hw]
    rfl
  have h := claim_C8_put_is_update (some ⟨pKeyF, false⟩) kmF [("name", Val.str "upd")]
    ownerModelF eUF c8ResEnt (by decide) hok
  refine ⟨h.2.2.1 "owner" (by decide), ?_⟩
  refine h.2.2.2.2.2 "name" (.mk .stringP false) (Val.str "upd")
    (by simp [ownerModelF, ModelCls.props]) (by decide) (by decide) ?_
  rw [show translate_property_names [("name", Val.str "upd")] ownerModelF Dir.input =
    [("name", Val.str "upd")] from rfl]
  simp +decide [coerceProp, _value_to_property, aget]

theorem aget_adel_ne (d : List (String × Val)) (k n : String) (h : n ≠ k) :
    aget (adel d k) n = aget d n := by
  unfold adel
  induction d with
  | nil => rfl
  | cons p rest ih =>
    rcases p with ⟨k2, v⟩
    simp only [List.filter_cons]
    by_cases hk2 : k2 = k
    · rw [if_neg (by simp [hk2])]
      rw [aget_pair_cons, if_neg (fun hc => h (by rw [← hc, hk2]))]
      exact ih
    · rw [if_pos (by simp [hk2])]
      rw [aget_pair_cons, aget_pair_cons]
      by_cases hk2n : k2 = n
      · simp [hk2n]
      · simp only [if_neg hk2n]
        exact ih

theorem build_create_owner (km : List (String × ModelCls)) (data : List (String × Val))
    (cls : ModelCls) (e : Entity) (op : String) (usr : URec)
    (hop : cls.ownerProp = some op) (hopid : op ≠ "id")
    (hok : _build_from_translated (some usr) km data cls none = .ok e) :
    e.get op = Val.key usr.key := by
  rw [_build_from_translated] at hok
  cases hw : walkProps (some usr) km data cls.props with
  | error e2 => rw [hw] at hok; cases hok
  | ok input0 =>
    rw [hw] at hok
    simp only [Option.isNone_none, Bool.true_and] at hok
    have main : ∀ input1 : List (String × Val),
        entityNew cls
          (match cls.ownerProp, (some usr : Option URec) with
           | some op2, some usr2 =>
             aset (input1.filter
               (fun p => decide (p.1 ∈ get_included_properties cls Dir.input))) op2
               (Val.key usr2.key)
           | _, _ =>
             input1.filter
               (fun p => decide (p.1 ∈ get_included_properties cls Dir.input))) = .ok e →
        e.get op = Val.key usr.key := by
      intro input1 hnew
      rw [hop] at hnew
      simp only [] at hnew
      set input3 := aset (input1.filter
        (fun p => decide (p.1 ∈ get_included_properties cls Dir.input))) op
        (Val.key usr.key) with h3
      unfold entityNew at hnew
      by_cases hall : (input3.all (fun p => p.1 == "id" || cls.propNames.contains p.1))
      · rw [if_pos hall] at hnew
        cases hid : aget input3 "id" with
        | none =>
          rw [hid] at hnew
          cases hnew
          show (aget (adel input3 "id") op).getD Val.null = Val.key usr.key
          rw [aget_adel_ne input3 "id" op hopid, h3, aget_aset_self]
          rfl
        | some idv =>
          rw [hid] at hnew
          cases idv with
          | str s =>
            cases hnew
            show (aget (adel input3 "id") op).getD Val.null = Val.key usr.key
            rw [aget_adel_ne input3 "id" op hopid, h3, aget_aset_self]
            rfl
          | int n =>
            cases hnew
            show (aget (adel input3 "id") op).getD Val.null = Val.key usr.key
            rw [aget_adel_ne input3 "id" op hopid, h3, aget_aset_self]
            rfl
          | null => cases hnew
          | bool b => cases hnew
          | dt t => cases hnew
          | key k => cases hnew
          | ent ps => cases hnew
          | arr xs => cases hnew
          | obj fs => cases hnew
      · rw [if_neg hall] at hnew
        cases hnew
    by_cases hui : cls.useInputId
    · rw [if_pos (by simp [hui])] at hok
      by_cases hhid : ahas data "id"
      · rw [if_pos hhid] at hok
        exact main (aset input0 "id" ((aget data "id").getD Val.null)) hok
      · rw [if_neg hhid] at hok
        cases hok
    · rw [if_neg (by simp [hui])] at hok
      exact main input0 hok

/-- C3 (amended): during entity construction, ownership injection sets the
owner property to the current principal whenever a new entity is created with
a logged-in principal — even when the payload gives an explicit override,
which is overwritten; the injection never happens when updating an existing
entity (an update whose translated payload does not name the owner property
leaves it unchanged); and it applies recursively to nested structured
sub-entity values whose own model declares an ownership property. -/
theorem claim_C3_ownership_injection (km : List (String × ModelCls)) :
    (∀ (data : List (String × Val)) (cls : ModelCls) (e : Entity) (op : String)
        (usr : URec), cls.ownerProp = some op → op ≠ "id" →
      _build_from_translated (some usr) km data cls none = .ok e →
      e.get op = Val.key usr.key) ∧
    (∀ (u : Option URec) (data : List (String × Val)) (cls : ModelCls) (m e : Entity)
        (op : String), cls.ownerProp = some op → ahas data op = false →
      _build_from_translated u km data cls (some m) = .ok e →
      e.get op = m.get op) ∧
    (∀ (v w : Val) (sub : ModelCls) (op : String) (usr : URec),
      sub.ownerProp = some op → op ≠ "id" →
      _value_to_property (some usr) km v (.structuredP sub) = .ok w →
      ∃ ps, w = .ent ps ∧ (aget ps op).getD Val.null = Val.key usr.key) := by
  refine ⟨?_, ?_, ?_⟩
  · intro data cls e op usr hop hopid hok
    exact build_create_owner km data cls e op usr hop hopid hok
  · intro u data cls m e op hop hnp hok
    obtain ⟨input0, hw, he⟩ := build_update_inversion u km data cls m e hok
    subst he
    have h0 : aget input0 op = none := walkProps_ok_not_present u km data cls.props input0 hw op hnp
    have h2 : aget (input0.filter
        (fun p => decide (p.1 ∈ get_included_properties cls Dir.input))) op = none := by
      by_cases hq : decide (op ∈ get_included_properties cls Dir.input) = true
      · rw [aget_filter_pos input0
          (fun k => decide (k ∈ get_included_properties cls Dir.input)) op hq]
        exact h0
      · exact aget_filter_neg input0
          (fun k => decide (k ∈ get_included_properties cls Dir.input)) op
          (by simpa using hq)
    show (aget _ op).getD Val.null = (aget m.props op).getD Val.null
    rw [aget_foldl_aset_none _ m.props op h2]
  · intro v w sub op usr hop hopid hok
    cases v with
    | obj fs =>
      cases hb : _build_model_from_data (some usr) km fs sub none with
      | error e2 => simp only [_value_to_property, hb] at hok; cases hok
      | ok e2 =>
        simp only [_value_to_property, hb] at hok
        cases hok
        refine ⟨e2.props, rfl, ?_⟩
        rw [_build_model_from_data] at hb
        exact build_create_owner km (translate_property_names fs sub Dir.input) sub e2
          op usr hop hopid hb
    | null => simp only [_value_to_property] at hok; cases hok
    | str s => simp only [_value_to_property] at hok; cases hok
    | int n => simp only [_value_to_property] at hok; cases hok
    | bool b => simp only [_value_to_property] at hok; cases hok
    | dt t => simp only [_value_to_property] at hok; cases hok
    | key k => simp only [_value_to_property] at hok; cases hok
    | ent ps => simp only [_value_to_property] at hok; cases hok
    | arr xs => simp only [_value_to_property] at hok; cases hok

/-- C3 counterexample: a POST payload giving an explicit owner override is
not honoured — the injection still sets the owner to the current principal,
contradicting "only when the payload gives no explicit override". -/
theorem claim_C3_counterexample :
    _build_model_from_data (some ⟨pKeyF, false⟩) kmF
        [("owner", .str (urlsafeEncode vKeyF)), ("name", .str "x")] ownerModelF none =
      .ok ⟨"MyModel", none, [("owner", Val.key pKeyF), ("name", Val.str "x")]⟩ ∧
    Val.key pKeyF ≠ Val.key vKeyF := by
  refine ⟨?_, by decide⟩
  rw [show (Val.str (urlsafeEncode vKeyF)) = Val.str "K:MyUser:v" from rfl]
  have hw : walkProps (some ⟨pKeyF, false⟩) kmF
      [("owner", .str "K:MyUser:v"), ("name", .str "x")] ownerModelF.props =
        .ok [("owner", .key ⟨"MyUser", "v"⟩), ("name", .str "x")] := by
    simp +decide [walkProps, coerceProp, _value_to_property, urlsafeDecode,
      splitColons, kindLookup, aget, ahas, ModelCls.props, ownerModelF]
  rw [_build_model_from_data,
    show translate_property_names
        [("owner", .str "K:MyUser:v"), ("name", .str "x")] ownerModelF Dir.input =
      [("owner", .str "K:MyUser:v"), ("name", .str "x")] from rfl,
    _build_from_translated, hw]
  rfl

/-- Concrete instantiation of the amended C3 theorem: creating under
principal P yields P as owner even though the payload named V; updating
without naming the owner leaves it unchanged. -/
theorem claim_C3_ownership_injection_witness :
    (Entity.get ⟨"MyModel", none, [("owner", Val.key pKeyF), ("name", Val.str "x")]⟩
        "owner" = Val.key pKeyF) ∧
    c8ResEnt.get "owner" = eUF.get "owner" := by
  have h := claim_C3_ownership_injection kmF
  have hw : walkProps (some ⟨pKeyF, false⟩) kmF
      [("owner", .str "K:MyUser:v"), ("name", .str "x")] ownerModelF.props =
        .ok [("owner", .key ⟨"MyUser", "v"⟩), ("name", .str "x")] := by
    simp +decide [walkProps, coerceProp, _value_to_property, urlsafeDecode,
      splitColons, kindLookup, aget, ahas, ModelCls.props, ownerModelF]
  have hw2 : walkProps (some ⟨pKeyF, false⟩) kmF [("name", Val.str "upd")]
      ownerModelF.props = .ok [("name", Val.str "upd")] := by
    simp +decide [walkProps, coerceProp, _value_to_property, aget, ahas,
      ModelCls.props, ownerModelF]
  constructor
  · refine h.1 [("owner", .str "K:MyUser:v"), ("name", .str "x")]
      ownerModelF _ "owner" ⟨pKeyF, false⟩ (by decide) (by decide) ?_
    rw [_build_from_translated, hw]
    rfl
  · refine h.2.1 (some ⟨pKeyF, false⟩) [("name", Val.str "upd")]
      ownerModelF eUF c8ResEnt "owner" (by decide) (by decide) ?_
    rw [_build_from_translated, hw2]
    rfl

theorem sput_props (s : Store) (m : Entity) :
    ((sput s m).2).props = m.props ∧ ((sput s m).2).kind = m.kind := by
  unfold sput
  cases m.key with
  | some k =>
    by_cases hmem : s.entries.any (fun x => x.key = some k) <;> simp [hmem]
  | none => simp

theorem sput_eq_some_pos (s : Store) (m : Entity) (k : NKey) (hk : m.key = some k)
    (hmem : (s.entries.any fun x => decide (x.key = some k)) = true) :
    sput s m = (⟨List.map (fun x => if x.key = some k then m else x) s.entries,
      s.nextGen⟩, m) := by
  unfold sput
  rw [hk]
  show (if (s.entries.any fun x => decide (x.key = some k)) = true then _ else _) = _
  rw [if_pos hmem]

theorem sput_eq_some_neg (s : Store) (m : Entity) (k : NKey) (hk : m.key = some k)
    (hmem : ¬(s.entries.any fun x => decide (x.key = some k)) = true) :
    sput s m = (⟨s.entries ++ [m], s.nextGen⟩, m) := by
  unfold sput
  rw [hk]
  show (if (s.entries.any fun x => decide (x.key = some k)) = true then _ else _) = _
  rw [if_neg hmem]

theorem sput_mem (s : Store) (m : Entity) : (sput s m).2 ∈ ((sput s m).1).entries := by
  cases hk : m.key with
  | some k =>
    by_cases hmem : (s.entries.any fun x => decide (x.key = some k)) = true
    · rw [sput_eq_some_pos s m k hk hmem]
      rcases List.any_eq_true.mp hmem with ⟨x, hx, hxk⟩
      simp only [List.mem_map]
      exact ⟨x, hx, by rw [if_pos (of_decide_eq_true hxk)]⟩
    · rw [sput_eq_some_neg s m k hk hmem]
      simp
  | none => simp [sput, hk]

theorem restMethodWrapper_success_inv (mname : String) (body : MethodBody) (h : Handler)
    (s : Store) (req : Req) (mid : Option String) (s2 : Store) (r : ROut)
    (hs : restMethodWrapper mname body h s req mid = (s2, .success r)) :
    ((mid.getD "") = "" ∧ body h s req none = (s2, .ok r)) ∨
    ((mid.getD "") ≠ "" ∧ ∃ tgt, _model_id_to_model h s (.str (pyTail (mid.getD ""))) = .ok tgt ∧
      body h s req tgt = (s2, .ok r)) := by
  unfold restMethodWrapper at hs
  split at hs
  · simp at hs
  · split at hs
    · simp at hs
    · split at hs
      · simp at hs
      · split at hs
        · rename_i hne
          split at hs
          · simp at hs
          · simp at hs
          · rename_i model? hres
            split at hs
            · split at hs
              · rename_i mEnt
                split at hs
                · simp at hs
                · split at hs
                  · simp at hs
                  · unfold runBody at hs
                    split at hs
                    · rename_i s3 r3 hb
                      refine Or.inr ⟨hne, some mEnt, hres, ?_⟩
                      rw [hb]
                      simp at hs
                      simp [hs.1, hs.2]
                    · simp at hs
                    · simp at hs
                · simp at hs
              · simp at hs
            · unfold runBody at hs
              split at hs
              · rename_i s3 r3 hb
                refine Or.inr ⟨hne, model?, hres, ?_⟩
                rw [hb]
                simp at hs
                simp [hs.1, hs.2]
              · simp at hs
              · simp at hs
        · rename_i hne
          unfold runBody at hs
          split at hs
          · rename_i s3 r3 hb
            refine Or.inl ⟨not_ne_iff.mp hne, ?_⟩
            rw [hb]
            simp at hs
            simp [hs.1, hs.2]
          · simp at hs
          · simp at hs
